import Mathlib

/-!
Verification of the brunnels-js crossing-analysis pipeline.

The JavaScript sources (src/js/geometry.js, src/js/brunnel.js) are shallowly
embedded below.  Geographic numbers are modelled as rationals.  The external
geometry library (turf.js) is out of scope per the design documents: it is
modelled as a structure of abstract operations (`TurfI`), parameterised by the
opaque polygon type it produces for buffers.  The one documented piece of turf
behaviour that the pipeline code itself depends on is that `turf.lineString`
raises an error when given fewer than two positions; this is embedded
explicitly in `lineString`.
-/

/- Batteries marks the rational arithmetic operations `@[irreducible]`, which
blocks `rfl`/`decide` evaluation of concrete pipeline runs; restore
definitional transparency for them (the kernel ignores reducibility
attributes, so checked proofs are unaffected). -/
set_option allowUnsafeReducibility true
attribute [local semireducible] Rat.add Rat.mul Rat.sub Rat.inv

/-- A geographic coordinate, `(lat, lon)`. -/
abbrev Coord := ℚ × ℚ

/-- A route span `{startDistance, endDistance}` in kilometers along the route
(values of `nearestPointOnLine(...).properties.location`). -/
structure RouteSpan where
  startDistance : ℚ
  endDistance : ℚ
deriving DecidableEq, Repr

/-- The exclusion reasons actually written by the pipeline: `outlier` (set by
the containment filter), `misaligned` (alignment filter) and `alternative`
(overlap resolver).  The design documents call these `outside-corridor`,
`misaligned` and `superseded-by-overlap`. -/
inductive ExclusionReason where
  | outlier
  | misaligned
  | alternative
deriving DecidableEq, Repr

/-- `brunnel.type`: bridge or tunnel. -/
inductive BrunnelType where
  | bridge
  | tunnel
deriving DecidableEq, Repr

/-- The analysis-relevant fields of a `Brunnel` object (brunnel.js, constructor,
lines 5-19).  Display-only fields (`name`, `tags`, `displayName`) are omitted.
`idx` models JavaScript object identity: it is the position of the object in
the array built at creation time, and group fields store lists of `idx` values
where the JavaScript objects store arrays of object references. -/
structure Brunnel where
  idx : ℕ
  id : ℕ
  type : BrunnelType
  geometry : List Coord
  nodes : List ℕ
  routeSpan : Option RouteSpan
  exclusionReason : Option ExclusionReason
  selected : Bool
  overlapGroup : Option (List ℕ)
  compoundGroup : Option (List ℕ)
deriving DecidableEq, Repr

/-- The interface of the external geometry library (turf.js) consumed by the
pipeline, parameterised by the opaque polygon type `P` produced by
`turf.buffer`.  A line string is represented by its list of coordinates. -/
structure TurfI (P : Type) where
  buffer : List Coord → ℚ → P
  polygonToLine : P → List Coord
  lineIntersectCount : List Coord → List Coord → ℕ
  booleanPointInPolygon : Coord → P → Bool
  nearestLocation : List Coord → Coord → ℚ
  nearestDistanceKm : List Coord → Coord → ℚ
  rhumbBearing : Coord → Coord → ℚ
  distanceMeters : Coord → Coord → ℚ

/-- `turf.lineString(coords)`: turf raises
"coordinates must be an array of two or more positions" when given fewer than
two positions; otherwise the feature just wraps the coordinate list. -/
def lineString (coords : List Coord) : Except String (List Coord) :=
  if coords.length < 2 then
    Except.error "coordinates must be an array of two or more positions"
  else
    Except.ok coords

/-- geometry.js lines 541-556, `GeometryUtils.getBearingDifference`: fold the
absolute difference of two bearings through the 360-degree wrap-around and
through direction reversal. -/
def getBearingDifference (bearing1 bearing2 : ℚ) : ℚ :=
  let diff := |bearing1 - bearing2|
  let diff2 := if diff > 180 then 360 - diff else diff
  if diff2 > 90 then |180 - diff2| else diff2

/-- Claim C9: the bearing-difference folding function satisfies the four
reference equalities `differenceOf(0, 180) = 0`, `differenceOf(10, 190) = 0`,
`differenceOf(0, 90) = 90` and `differenceOf(350, 10) = 20`, folding both the
360-degree wrap-around and direction reversal. -/
theorem getBearingDifference_reference_values :
    getBearingDifference 0 180 = 0 ∧
    getBearingDifference 10 190 = 0 ∧
    getBearingDifference 0 90 = 90 ∧
    getBearingDifference 350 10 = 20 := by
  refine ⟨?_, ?_, ?_, ?_⟩ <;> norm_num [getBearingDifference]

/-- brunnel.js lines 236-238, `Brunnel.isIncluded`: included iff
`exclusionReason === null`. -/
def Brunnel.isIncluded (b : Brunnel) : Bool :=
  b.exclusionReason.isNone

/-- Loop body of geometry.js lines 277-292 (`calculateCumulativeDistances`):
accumulate `turf.distance` between consecutive route points. -/
def cumulDistGo {P : Type} (t : TurfI P) (prev : Coord) (total : ℚ) :
    List Coord → List ℚ
  | [] => []
  | c :: cs => (total + t.distanceMeters prev c) ::
      cumulDistGo t c (total + t.distanceMeters prev c) cs

/-- geometry.js lines 277-292, `GeometryUtils.calculateCumulativeDistances`:
the list starts with 0 and appends the running geodesic total for each later
point (an empty coordinate list still yields `[0]`, as in the source). -/
def calculateCumulativeDistances {P : Type} (t : TurfI P) :
    List Coord → List ℚ
  | [] => [0]
  | c :: cs => 0 :: cumulDistGo t c 0 cs

/-- geometry.js lines 259-270, `GeometryUtils.createRouteBuffer`: build the
route line string (turf raises on fewer than two points) and buffer it by
`bufferMeters / 1000` kilometers. -/
def createRouteBuffer {P : Type} (t : TurfI P) (routeCoords : List Coord)
    (bufferMeters : ℚ) : Except String P := do
  let line ← lineString routeCoords
  pure (t.buffer line (bufferMeters / 1000))

/-- geometry.js lines 350-368, `GeometryUtils.brunnelWithin`: reject if the
brunnel line intersects the buffer boundary, otherwise test whether the first
point is inside the polygon.  Building the brunnel line raises for polylines
with fewer than two points, and nothing in this stage catches that error.
The `[]` branch after a successful `lineString` is unreachable. -/
def brunnelWithin {P : Type} (t : TurfI P) (brunnelCoords : List Coord)
    (routeBuffer : P) : Except String Bool := do
  let brunnelLine ← lineString brunnelCoords
  let polygonBoundary := t.polygonToLine routeBuffer
  if t.lineIntersectCount brunnelLine polygonBoundary > 0 then
    pure false
  else
    match brunnelCoords with
    | [] => pure false
    | firstPoint :: _ => pure (t.booleanPointInPolygon firstPoint routeBuffer)

/-- brunnel.js lines 280-290, `BrunnelAnalysis.filterContained`: keep exactly
the brunnels whose geometry is within the buffer.  The source sets
`exclusionReason = 'outlier'` on each rejected object and drops it from the
returned array; only the returned array flows onward, so the result models
the surviving collection.  An error raised by `brunnelWithin` aborts the
whole filter (the source has no try/catch here). -/
def filterContained {P : Type} (t : TurfI P) (routeBuffer : P) :
    List Brunnel → Except String (List Brunnel)
  | [] => Except.ok []
  | b :: rest => do
    let isWithin ← brunnelWithin t b.geometry routeBuffer
    let tail ← filterContained t routeBuffer rest
    if isWithin then pure (b :: tail) else pure tail

/-- geometry.js lines 436-466, `GeometryUtils.calculateRouteSpan`: project each
brunnel point onto the route and take the min/max of the projection locations.
The try/catch returns null when building the route line raises (route with
fewer than two points).  For an empty brunnel polyline the JavaScript min/max
fold would return `{Infinity, -Infinity}`; that case is unreachable in the
pipeline (shorter polylines already abort the containment stage) and is
modelled as `none`. -/
def calculateRouteSpan {P : Type} (t : TurfI P)
    (brunnelCoords routeCoords : List Coord) : Option RouteSpan :=
  match lineString routeCoords with
  | Except.error _ => none
  | Except.ok routeLine =>
    match brunnelCoords.map (fun c => t.nearestLocation routeLine c) with
    | [] => none
    | l :: ls => some ⟨ls.foldl min l, ls.foldl max l⟩

/-- brunnel.js lines 298-302, `BrunnelAnalysis.calculateRouteSpans`: set every
brunnel's `routeSpan`. -/
def calculateRouteSpans {P : Type} (t : TurfI P) (s : List Brunnel)
    (routeCoords : List Coord) : List Brunnel :=
  s.map fun b => {b with routeSpan := calculateRouteSpan t b.geometry routeCoords}

/-- Loop of geometry.js lines 314-326 (`getRouteSegment`): scan the cumulative
distances with index `i`, recording `startIndex = max(0, i-1)` at the first
distance ≥ start and stopping with `endIndex = min(nCoords-1, i+1)` at the
first distance ≥ end. -/
def segIndicesGo (startM endM : ℚ) (nCoords : ℕ) :
    List ℚ → ℕ → Option ℕ → Option ℕ × Option ℕ
  | [], _, si => (si, none)
  | d :: ds, i, si =>
    let si' := if si = none ∧ startM ≤ d then some (i - 1) else si
    if endM ≤ d then (si', some (min (nCoords - 1) (i + 1)))
    else segIndicesGo startM endM nCoords ds (i + 1) si'

/-- geometry.js lines 302-342, `GeometryUtils.getRouteSegment`: route vertices
bracketing the span `[startDist, endDist]` (kilometers, converted to meters to
match the cumulative-distance table), one extra vertex on each side when
possible. -/
def getRouteSegment (routeCoords : List Coord) (cumulativeDistances : List ℚ)
    (startDist endDist : ℚ) : List Coord :=
  if startDist ≥ endDist ∨ startDist < 0 then []
  else
    let p := segIndicesGo (startDist * 1000) (endDist * 1000)
      routeCoords.length cumulativeDistances 0 none
    let endIndex := p.2.getD (routeCoords.length - 1)
    match p.1 with
    | none => []
    | some startIndex => (routeCoords.drop startIndex).take (endIndex + 1 - startIndex)

/-- The directed segments of a polyline: consecutive coordinate pairs. -/
def segmentPairs (coords : List Coord) : List (Coord × Coord) :=
  coords.zip coords.tail

/-- geometry.js lines 478-533, `GeometryUtils.isBrunnelAligned`: degenerate
inputs pass; otherwise some brunnel segment's rhumb bearing must be within
tolerance of some route-segment bearing (short-circuiting `any`). -/
def isBrunnelAligned {P : Type} (t : TurfI P)
    (brunnelCoords routeCoords : List Coord) (cumulativeDistances : List ℚ)
    (routeSpan : Option RouteSpan) (toleranceDegrees : ℚ) : Bool :=
  match routeSpan with
  | none => true
  | some span =>
    if brunnelCoords.length < 2 ∨ routeCoords.length < 2 then true
    else
      let routeSegment := getRouteSegment routeCoords cumulativeDistances
        span.startDistance span.endDistance
      if routeSegment.length < 2 then true
      else
        (segmentPairs brunnelCoords).any fun bp =>
          (segmentPairs routeSegment).any fun rp =>
            decide (getBearingDifference (t.rhumbBearing bp.1 bp.2)
              (t.rhumbBearing rp.1 rp.2) ≤ toleranceDegrees)

/-- brunnel.js lines 88-102, `Brunnel.isAligned`: a brunnel without a route
span is aligned by fiat; otherwise defer to `isBrunnelAligned`. -/
def Brunnel.isAligned {P : Type} (t : TurfI P) (b : Brunnel)
    (routeCoords : List Coord) (cumulativeDistances : List ℚ)
    (toleranceDegrees : ℚ) : Bool :=
  match b.routeSpan with
  | none => true
  | some _ => isBrunnelAligned t b.geometry routeCoords cumulativeDistances
      b.routeSpan toleranceDegrees

/-- brunnel.js lines 442-454, `BrunnelAnalysis.filterAligned`: mark every
included, misaligned brunnel with `exclusionReason = 'misaligned'`. -/
def filterAligned {P : Type} (t : TurfI P) (s : List Brunnel)
    (routeCoords : List Coord) (cumulativeDistances : List ℚ)
    (toleranceDegrees : ℚ) : List Brunnel :=
  s.map fun b =>
    if b.isIncluded then
      if b.isAligned t routeCoords cumulativeDistances toleranceDegrees then b
      else {b with exclusionReason := some ExclusionReason.misaligned}
    else b

/-- Insert into a sorted list, placing the new element before the first entry
it compares `le` to.  Together with `insertionSortBy` this models the result
of JavaScript's stable `Array.prototype.sort` with a numeric key comparator. -/
def insertIntoSorted {α : Type} (le : α → α → Bool) (x : α) : List α → List α
  | [] => [x]
  | y :: ys => if le x y then x :: y :: ys else y :: insertIntoSorted le x ys

/-- Stable sort by a boolean comparison; an earlier element stays before every
later element it ties with, exactly like JavaScript's stable sort. -/
def insertionSortBy {α : Type} (le : α → α → Bool) : List α → List α
  | [] => []
  | x :: xs => insertIntoSorted le x (insertionSortBy le xs)

/-- Resolve a stored object reference (modelled by `idx`) in the current
collection. -/
def findByIdx (s : List Brunnel) (i : ℕ) : Option Brunnel :=
  s.find? fun b => b.idx == i

/-- The sort key of brunnel.js line 121, `(a.routeSpan?.startDistance || 0)`:
the span's start distance, or 0 when the span is null (a start distance of 0
is falsy in JavaScript and also yields 0).  A dangling reference (absent from
the collection) also gets 0; it never occurs in pipeline states. -/
def repSortKey (s : List Brunnel) (i : ℕ) : ℚ :=
  match findByIdx s i with
  | some b =>
    match b.routeSpan with
    | some sp => sp.startDistance
    | none => 0
  | none => 0

/-- brunnel.js lines 115-124, `Brunnel.isRepresentative`: a brunnel outside
any compound group (null or of size ≤ 1) represents itself; otherwise it is
the representative iff it is the head of the compound group stably sorted by
span start distance. -/
def isRepresentative (s : List Brunnel) (b : Brunnel) : Bool :=
  match b.compoundGroup with
  | none => true
  | some g =>
    if g.length ≤ 1 then true
    else
      match (insertionSortBy (fun i j => decide (repSortKey s i ≤ repSortKey s j)) g).head? with
      | some j => j == b.idx
      | none => false

/-- brunnel.js lines 336-351, `_buildNodeEdgesMap`, read back through `get`:
the per-node list of brunnel indices, one entry per occurrence of `nodeId` in
each brunnel's node list, in input order — exactly the pushes performed by
the source's nested `forEach`. -/
def edgesFor (arr : List Brunnel) (nodeId : ℕ) : List (Fin arr.length) :=
  (List.finRange arr.length).flatMap fun i =>
    ((arr.get i).nodes.filter fun nd => nd == nodeId).map fun _ => i

/-- An upper bound on the queue entries one visit of `c` can enqueue: the
number of `(nodeId, neighbor)` pairs reachable from `c`'s node list. -/
def pushCount (arr : List Brunnel) (c : Fin arr.length) : ℕ :=
  ((arr.get c).nodes.flatMap fun nodeId => edgesFor arr nodeId).length

/-- An upper bound on the remaining iterations of the BFS loop: the current
queue length plus, for every unvisited index, one visit step and its possible
pushes.  Used only as structural fuel; `bfsF_fuel_irrelevant` shows any fuel
at least this large gives the same result. -/
def bfsFuel (arr : List Brunnel) (queue : List (Fin arr.length))
    (visited : Finset (Fin arr.length)) : ℕ :=
  queue.length + ∑ c ∈ Finset.univ \ visited, (1 + pushCount arr c)

/-- The neighbor pushes one BFS visit of `c` performs (brunnel.js lines
397-408): every index sharing a node id with `c` that is not yet visited,
one entry per `(nodeId, edge-entry)` pair, in iteration order. -/
def bfsPushes (arr : List Brunnel) (c : Fin arr.length)
    (visited1 : Finset (Fin arr.length)) : List (Fin arr.length) :=
  (arr.get c).nodes.flatMap fun nodeId =>
    (edgesFor arr nodeId).filter fun j => decide (j ∉ visited1)

/-- brunnel.js lines 385-412, `_findConnectedComponentBFS`, with explicit
fuel: pop the queue, skip visited entries, otherwise record the index in the
component and enqueue every unvisited index sharing a node with it.  The
source's `while` loop terminates because every iteration either shrinks the
queue or visits a new index; `bfsFuel` bounds the number of iterations. -/
def bfsF (arr : List Brunnel) : ℕ → List (Fin arr.length) →
    Finset (Fin arr.length) → List (Fin arr.length) × Finset (Fin arr.length)
  | _, [], visited => ([], visited)
  | 0, _ :: _, visited => ([], visited)
  | fuel + 1, c :: rest, visited =>
    if c ∈ visited then bfsF arr fuel rest visited
    else
      let r := bfsF arr fuel (rest ++ bfsPushes arr c (insert c visited)) (insert c visited)
      (c :: r.1, r.2)

/-- brunnel.js lines 385-412, `_findConnectedComponentBFS`: the BFS loop run
to completion (with provably sufficient fuel). -/
def bfs (arr : List Brunnel) (queue : List (Fin arr.length))
    (visited : Finset (Fin arr.length)) :
    List (Fin arr.length) × Finset (Fin arr.length) :=
  bfsF arr (bfsFuel arr queue visited) queue visited

/-- brunnel.js lines 360-374, `_findConnectedComponents`: start a BFS at every
index not yet visited, in index order, keeping nonempty components. -/
def findComponentsGo (arr : List Brunnel) :
    List (Fin arr.length) → Finset (Fin arr.length) → List (List (Fin arr.length))
  | [], _ => []
  | i :: rest, visited =>
    if i ∈ visited then findComponentsGo arr rest visited
    else
      let r := bfs arr [i] visited
      if r.1.length > 0 then r.1 :: findComponentsGo arr rest r.2
      else findComponentsGo arr rest r.2

/-- brunnel.js lines 360-374, `_findConnectedComponents`, started on the full
index range with an empty visited set. -/
def findConnectedComponents (arr : List Brunnel) : List (List (Fin arr.length)) :=
  findComponentsGo arr (List.finRange arr.length) ∅

/-- brunnel.js lines 420-433, `_createCompoundGroups`: for every component
with more than one member, set each member's `compoundGroup` to the full
component (the same array reference for all members, modelled as the same
list of `idx` values). -/
def createCompoundGroups (s : List Brunnel) (components : List (List ℕ)) :
    List Brunnel :=
  components.foldl
    (fun st comp =>
      if comp.length > 1 then
        st.map fun b => if b.idx ∈ comp then {b with compoundGroup := some comp} else b
      else st)
    s

/-- brunnel.js lines 322-328, `_processCompoundBrunnelsForType`: nothing to do
for at most one brunnel of this kind; otherwise compute components of the
kind-restricted array and assign compound groups (components are translated
from positions in the kind-restricted array back to object references, i.e.
`idx` values). -/
def processCompoundBrunnelsForType (s : List Brunnel) (arr : List Brunnel) :
    List Brunnel :=
  if arr.length ≤ 1 then s
  else
    createCompoundGroups s
      ((findConnectedComponents arr).map fun comp => comp.map fun i => (arr.get i).idx)

/-- brunnel.js lines 308-315, `BrunnelAnalysis.findCompoundBrunnels`: bridges
and tunnels are processed separately, so only same-kind brunnels can group. -/
def findCompoundBrunnels (s : List Brunnel) : List Brunnel :=
  let bridges := s.filter fun b => b.type == BrunnelType.bridge
  let tunnels := s.filter fun b => b.type == BrunnelType.tunnel
  processCompoundBrunnelsForType (processCompoundBrunnelsForType s bridges) tunnels

/-- brunnel.js lines 550-552, `BrunnelAnalysis.routeSpansOverlap`: half-open
interval overlap — touching endpoints do not overlap. -/
def routeSpansOverlap (span1 span2 : RouteSpan) : Bool :=
  !(decide (span1.endDistance ≤ span2.startDistance) ||
    decide (span2.endDistance ≤ span1.startDistance))

/-- Field access `brunnel.routeSpan` inside `handleOverlaps`, where the filter
guarantees the span is present; the default is never read there. -/
def spanOrDefault (b : Brunnel) : RouteSpan :=
  b.routeSpan.getD ⟨0, 0⟩

/-- brunnel.js lines 529-542, `_calculateAverageDistanceToRoute`: the mean of
the distances from each geometry point to its nearest point on the route.
(The source would raise while building the route line for routes with fewer
than two points; theorems about this stage therefore assume a route of at
least two points, which every completed pipeline run provides.) -/
def calculateAverageDistanceToRoute {P : Type} (t : TurfI P) (b : Brunnel)
    (routeCoords : List Coord) : ℚ :=
  (b.geometry.map fun p => t.nearestDistanceKm routeCoords p).sum / b.geometry.length

/-- brunnel.js lines 462-466: the brunnels considered by the overlap resolver:
included, with a route span, and representative of their compound group. -/
def overlapCandidates (s : List Brunnel) : List Brunnel :=
  s.filter fun b => b.isIncluded && b.routeSpan.isSome && isRepresentative s b

/-- brunnel.js lines 471-490, one step of the grouping loop: append the
brunnel to the first existing group containing a member whose span overlaps
its own, otherwise start a new group at the end. -/
def addToOverlapGroups (groups : List (List Brunnel)) (b : Brunnel) :
    List (List Brunnel) :=
  match groups with
  | [] => [[b]]
  | g :: gs =>
    if g.any fun other => routeSpansOverlap (spanOrDefault b) (spanOrDefault other) then
      (g ++ [b]) :: gs
    else
      g :: addToOverlapGroups gs b

/-- brunnel.js lines 469-490: greedy incremental overlap grouping of the
candidates in input order. -/
def buildOverlapGroups (reps : List Brunnel) : List (List Brunnel) :=
  reps.foldl addToOverlapGroups []

/-- brunnel.js lines 495-498: set `overlapGroup` to the full group on every
member. -/
def markOverlapGroup (s : List Brunnel) (gIdx : List ℕ) : List Brunnel :=
  s.map fun b => if b.idx ∈ gIdx then {b with overlapGroup := some gIdx} else b

/-- brunnel.js line 515: set `exclusionReason = 'alternative'` on one member. -/
def excludeAlternative (s : List Brunnel) (i : ℕ) : List Brunnel :=
  s.map fun b =>
    if b.idx = i then {b with exclusionReason := some ExclusionReason.alternative} else b

/-- brunnel.js lines 493-519: for a group of more than one member, record the
group on every member, sort the members stably by average distance to the
route, keep the closest and exclude the rest. -/
def processOverlapGroup {P : Type} (t : TurfI P) (routeCoords : List Coord)
    (s : List Brunnel) (g : List Brunnel) : List Brunnel :=
  if g.length > 1 then
    let gIdx := g.map fun b => b.idx
    let s1 := markOverlapGroup s gIdx
    let sorted := insertionSortBy (fun a b => decide (a.2 ≤ b.2))
      (g.map fun b => (b, calculateAverageDistanceToRoute t b routeCoords))
    match sorted with
    | [] => s1
    | _ :: rest => rest.foldl (fun st p => excludeAlternative st p.1.idx) s1
  else s

/-- brunnel.js lines 461-520, `BrunnelAnalysis.handleOverlaps`. -/
def handleOverlaps {P : Type} (t : TurfI P) (s : List Brunnel)
    (routeCoords : List Coord) : List Brunnel :=
  (buildOverlapGroups (overlapCandidates s)).foldl (processOverlapGroup t routeCoords) s

/-- The analysis options of geometry.js lines 758-765. -/
structure AnalysisOptions where
  queryBuffer : ℚ
  routeBuffer : ℚ
  bearingTolerance : ℚ
  timeout : ℕ
deriving DecidableEq, Repr

/-- The `parseFloat(...) || default` idiom of geometry.js lines 760-762: a
non-numeric field (`parseFloat` returns NaN, modelled as `none`) falls back to
the default — and so does an entered value of 0, which is falsy in
JavaScript. -/
def jsParseOr (raw : Option ℚ) (dflt : ℚ) : ℚ :=
  match raw with
  | none => dflt
  | some x => if x = 0 then dflt else x

/-- geometry.js lines 758-765, `BrunnelsApp.getAnalysisOptions`: read the form
fields, with defaults 10 / 3 / 20 and a fixed timeout of 30.  Each argument is
the `parseFloat` result of the corresponding form field. -/
def getAnalysisOptions (queryBufferRaw routeBufferRaw bearingToleranceRaw : Option ℚ) :
    AnalysisOptions :=
  ⟨jsParseOr queryBufferRaw 10, jsParseOr routeBufferRaw 3,
    jsParseOr bearingToleranceRaw 20, 30⟩

/-- The route object built in geometry.js lines 736-744 (analysis-relevant
fields only). -/
structure Route where
  coordinates : List Coord
  cumulativeDistances : List ℚ
deriving DecidableEq, Repr

/-- geometry.js lines 732-737: a route carries its coordinates and their
cumulative distances. -/
def mkRoute {P : Type} (t : TurfI P) (coordinates : List Coord) : Route :=
  ⟨coordinates, calculateCumulativeDistances t coordinates⟩

/-- geometry.js lines 797-798 via brunnel.js line 108: recompute `selected`
from the final `exclusionReason`. -/
def initializeSelectedState (s : List Brunnel) : List Brunnel :=
  s.map fun b => {b with selected := b.isIncluded}

/-- geometry.js lines 770-799, `BrunnelsApp.applyFiltering`: buffer the route,
drop brunnels outside the corridor, compute route spans, detect compound
structures, filter by alignment when the tolerance is positive, resolve
overlaps, and refresh the `selected` flags.  An error raised anywhere inside
propagates out (the caller `analyzeRoute` only reports it). -/
def applyFiltering {P : Type} (t : TurfI P) (route : Route)
    (options : AnalysisOptions) (brunnels : List Brunnel) :
    Except String (List Brunnel) := do
  let routeBuffer ← createRouteBuffer t route.coordinates options.routeBuffer
  let brunnels1 ← filterContained t routeBuffer brunnels
  let brunnels2 := calculateRouteSpans t brunnels1 route.coordinates
  let brunnels3 := findCompoundBrunnels brunnels2
  let brunnels4 :=
    if options.bearingTolerance > 0 then
      filterAligned t brunnels3 route.coordinates route.cumulativeDistances
        options.bearingTolerance
    else brunnels3
  pure (initializeSelectedState (handleOverlaps t brunnels4 route.coordinates))

/-- The per-candidate input fields consumed by `Brunnel.fromOverpassData`
(brunnel.js lines 26-54), display-only fields omitted. -/
structure BrunnelData where
  id : ℕ
  type : BrunnelType
  geometry : List Coord
  nodes : List ℕ
deriving DecidableEq, Repr

/-- brunnel.js lines 5-19: a freshly constructed brunnel with all analysis
fields null and `selected = true`; `idx` records the creation position, which
models object identity. -/
def mkBrunnel (i : ℕ) (d : BrunnelData) : Brunnel :=
  ⟨i, d.id, d.type, d.geometry, d.nodes, none, none, true, none, none⟩

/-- brunnel.js lines 26-54, `Brunnel.fromOverpassData`: one brunnel object per
candidate, in input order. -/
def mkBrunnels (ds : List BrunnelData) : List Brunnel :=
  ds.enum.map fun p => mkBrunnel p.1 p.2

/-! ### Concrete geometry-library instances used for counterexamples and
witnesses.  They stand for particular outputs of the external turf.js
library on particular data. -/

/-- A geometry library whose projection location is the point's latitude, with
every line inside every buffer. -/
def turfFlat : TurfI Unit :=
  ⟨fun _ _ => (), fun _ => [], fun _ _ => 0, fun _ _ => true,
   fun _ c => c.1, fun _ c => c.2, fun _ _ => 0, fun _ _ => 10000⟩

/-- Like `turfFlat`, but bearings distinguish north-running segments
(constant longitude, bearing 0) from others (bearing 90). -/
def turfBearing : TurfI Unit :=
  ⟨fun _ _ => (), fun _ => [], fun _ _ => 0, fun _ _ => true,
   fun _ c => c.1, fun _ c => c.2,
   fun p q => if p.2 = q.2 then 0 else 90, fun _ _ => 10000⟩

/-- Like `turfFlat`, but any line starting at `(9, 9)` crosses the buffer
boundary. -/
def turfEdge : TurfI Unit :=
  ⟨fun _ _ => (), fun _ => [], fun line _ => if line.head? = some (9, 9) then 1 else 0,
   fun _ _ => true, fun _ c => c.1, fun _ c => c.2, fun _ _ => 0, fun _ _ => 10000⟩

/-- A straight two-point route, 10 km long under the instances above. -/
def routeTwoPoint : Route := mkRoute turfFlat [(0, 0), (10, 0)]

/-- Three bridges: candidate 0 (span start 5, endpoint node 1), candidate 1
(span start 3, node 2) and candidate 2 (span start 3, nodes 1 and 2).  All
three form one compound component; candidates 1 and 2 tie exactly on
`routeSpan.startDistance`. -/
def brunnelsTie : List Brunnel := mkBrunnels
  [⟨100, BrunnelType.bridge, [(5, 0), (5, 1)], [1]⟩,
   ⟨101, BrunnelType.bridge, [(3, 0), (3, 1)], [2]⟩,
   ⟨102, BrunnelType.bridge, [(3, 2), (3, 3)], [1, 2]⟩]

/-- A single bridge whose segment runs diagonally (bearing 90 under
`turfBearing`) across the north-running route, projecting to span 2-3 km. -/
def brunnelsDiagonal : List Brunnel :=
  mkBrunnels [⟨200, BrunnelType.bridge, [(2, 1), (3, 2)], []⟩]

/-- Two bridges; the first starts at `(9, 9)` and therefore crosses the
corridor boundary of `turfEdge`. -/
def brunnelsEdge : List Brunnel := mkBrunnels
  [⟨300, BrunnelType.bridge, [(9, 9), (9, 10)], []⟩,
   ⟨301, BrunnelType.bridge, [(4, 0), (4, 1)], []⟩]

/-- Claim C5, counterexample: in the pipeline output for `brunnelsTie` (with
a disabled alignment filter), all three bridges share the compound group
`[0, 2, 1]` (breadth-first discovery order); candidates 1 and 2 tie exactly
on the sort key `routeSpan.startDistance = 3`, candidate 1 precedes
candidate 2 in the original candidate array, and yet `isRepresentative` is
false for candidate 1 and true for candidate 2 — the tie is broken by the
position within the compound-group array, not by original input order. -/
theorem representative_tie_breaks_by_group_order :
    ((applyFiltering turfFlat routeTwoPoint ⟨10, 3, 0, 30⟩ brunnelsTie).map fun out =>
      out.map fun b => (b.idx, b.compoundGroup, repSortKey out b.idx, isRepresentative out b))
      = Except.ok [(0, some [0, 2, 1], 5, false),
                   (1, some [0, 2, 1], 3, false),
                   (2, some [0, 2, 1], 3, true)] := by
  rfl

/-- Claim C8, counterexample: a tolerance of 0 entered in the configuration
form is coerced by `getAnalysisOptions` to the default 20 (`parseFloat(...)
|| 20` treats 0 as falsy), so the alignment filter runs and the diagonal
bridge receives `exclusionReason = 'misaligned'` even though the configured
tolerance was 0. -/
theorem configured_zero_tolerance_becomes_default :
    (getAnalysisOptions none none (some 0)).bearingTolerance = 20 ∧
    ((applyFiltering turfBearing routeTwoPoint (getAnalysisOptions none none (some 0))
        brunnelsDiagonal).map fun out => out.map fun b => b.exclusionReason)
      = Except.ok [some ExclusionReason.misaligned] := by
  exact ⟨by rfl, by rfl⟩

/-- Claim C7, counterexample: a negative alignment tolerance (-5) passes
`getAnalysisOptions` unchanged and the pipeline completes without surfacing
any error, processing the brunnel normally (its `routeSpan` is computed and
it finishes included) — there is no fail-fast configuration validation. -/
theorem negative_tolerance_is_not_rejected :
    (getAnalysisOptions none none (some (-5))).bearingTolerance = -5 ∧
    ((applyFiltering turfBearing routeTwoPoint (getAnalysisOptions none none (some (-5)))
        brunnelsDiagonal).map fun out =>
      out.map fun b => (b.exclusionReason, b.routeSpan))
      = Except.ok [(none, some ⟨2, 3⟩)] := by
  exact ⟨by rfl, by rfl⟩

/-- Claim C6, counterexample: a candidate whose polyline has a single point
makes the containment stage raise (`turf.lineString` requires two or more
positions); the error is not caught inside the pipeline, so the whole
filtering run aborts instead of merely rejecting that candidate. -/
theorem short_polyline_aborts_pipeline :
    applyFiltering turfFlat routeTwoPoint ⟨10, 3, 20, 30⟩
        [mkBrunnel 0 ⟨77, BrunnelType.bridge, [(1, 1)], []⟩]
      = Except.error "coordinates must be an array of two or more positions" := by
  rfl

/-- Claim C4, counterexample: of two candidates, candidate 0 fails the
containment test and the final pipeline output contains only candidate 1 —
the crossing rejected by the containment filter is removed from the
collection, so the final set does not equal the created set. -/
theorem containment_rejection_removes_crossing :
    ((applyFiltering turfEdge routeTwoPoint ⟨10, 3, 0, 30⟩ brunnelsEdge).map fun out =>
      out.map fun b => b.idx)
      = Except.ok [1] := by
  rfl

/-! ### Generic list lemmas -/

/-- Folding per-element updates over a state list equals mapping the folded
per-element update. -/
theorem foldl_map_comm {α β : Type} (h : β → α → α) (l : List β) (s : List α) :
    l.foldl (fun st c => st.map (h c)) s = s.map fun a => l.foldl (fun x c => h c x) a := by
  induction l generalizing s with
  | nil => simp
  | cons c l ih => simp [List.foldl_cons, ih, List.map_map, Function.comp]

theorem insertIntoSorted_length {α : Type} (le : α → α → Bool) (x : α) (l : List α) :
    (insertIntoSorted le x l).length = l.length + 1 := by
  induction l with
  | nil => rfl
  | cons y ys ih =>
    by_cases h : le x y = true
    · simp [insertIntoSorted, h]
    · simp [insertIntoSorted, h, ih]

theorem insertIntoSorted_perm {α : Type} (le : α → α → Bool) (x : α) (l : List α) :
    (insertIntoSorted le x l).Perm (x :: l) := by
  induction l with
  | nil => exact List.Perm.refl _
  | cons y ys ih =>
    by_cases h : le x y = true
    · simp [insertIntoSorted, h]
    · simp only [insertIntoSorted, h]
      exact (ih.cons y).trans (List.Perm.swap x y ys)

theorem insertionSortBy_perm {α : Type} (le : α → α → Bool) (l : List α) :
    (insertionSortBy le l).Perm l := by
  induction l with
  | nil => exact List.Perm.refl _
  | cons x xs ih =>
    exact (insertIntoSorted_perm le x _).trans (ih.cons x)

/-- The earliest element of the list attaining the minimal key: ties are won
by the earlier element. -/
def firstMinBy {α : Type} (key : α → ℚ) : List α → Option α
  | [] => none
  | x :: xs =>
    match firstMinBy key xs with
    | none => some x
    | some y => if key x ≤ key y then some x else some y

theorem firstMinBy_mem {α : Type} (key : α → ℚ) (l : List α) (m : α)
    (h : firstMinBy key l = some m) : m ∈ l := by
  induction l with
  | nil => simp [firstMinBy] at h
  | cons x xs ih =>
    rcases hx : firstMinBy key xs with _ | y
    · simp [firstMinBy, hx] at h
      simp [h]
    · simp only [firstMinBy, hx] at h
      by_cases hle : key x ≤ key y
      · simp [hle] at h
        simp [h]
      · simp [hle] at h
        exact List.mem_cons_of_mem x (ih (h ▸ hx))

theorem firstMinBy_eq_none {α : Type} (key : α → ℚ) (l : List α) :
    firstMinBy key l = none ↔ l = [] := by
  cases l with
  | nil => simp [firstMinBy]
  | cons x xs =>
    simp only [firstMinBy]
    rcases firstMinBy key xs with _ | y
    · simp
    · by_cases hle : key x ≤ key y <;> simp [hle]

theorem firstMinBy_le {α : Type} (key : α → ℚ) :
    ∀ (l : List α) (m : α), firstMinBy key l = some m → ∀ x ∈ l, key m ≤ key x := by
  intro l
  induction l with
  | nil => intro m h; simp [firstMinBy] at h
  | cons x xs ih =>
    intro m h
    rcases hx : firstMinBy key xs with _ | y
    · have hxs : xs = [] := (firstMinBy_eq_none key xs).mp hx
      subst hxs
      simp [firstMinBy] at h
      intro z hz
      simp at hz
      simp [hz, h]
    · simp only [firstMinBy, hx] at h
      by_cases hle : key x ≤ key y
      · simp [hle] at h
        intro z hz
        rcases List.mem_cons.mp hz with hz | hz
        · simp [h, hz]
        · exact h ▸ (hle.trans (ih y hx z hz))
      · simp [hle] at h
        intro z hz
        rcases List.mem_cons.mp hz with hz | hz
        · exact h ▸ (hz ▸ (le_of_lt (lt_of_not_le hle)))
        · exact h ▸ ih y hx z hz

theorem insertionSortBy_head_firstMinBy {α : Type} (key : α → ℚ) (l : List α) :
    (insertionSortBy (fun a b => decide (key a ≤ key b)) l).head? = firstMinBy key l := by
  induction l with
  | nil => rfl
  | cons x xs ih =>
    rcases hs : insertionSortBy (fun a b => decide (key a ≤ key b)) xs with _ | ⟨y, ys⟩
    · have hxs : xs = [] := by
        have := insertionSortBy_perm (fun a b => decide (key a ≤ key b)) xs
        rw [hs] at this
        exact (List.Perm.nil_eq this).symm
      subst hxs
      rfl
    · have hfm : firstMinBy key xs = some y := by
        rw [← ih, hs]
        rfl
      simp only [insertionSortBy, hs, insertIntoSorted, firstMinBy, hfm]
      by_cases hle : key x ≤ key y
      · simp [hle]
      · simp [hle]

/-! ### Stage normal forms: every pipeline stage acts elementwise -/

/-- The per-element effect of one component in `createCompoundGroups`. -/
def compoundStep (comp : List ℕ) (b : Brunnel) : Brunnel :=
  if comp.length > 1 then
    (if b.idx ∈ comp then {b with compoundGroup := some comp} else b)
  else b

theorem createCompoundGroups_eq_map (s : List Brunnel) (comps : List (List ℕ)) :
    createCompoundGroups s comps
      = s.map fun b => comps.foldl (fun x c => compoundStep c x) b := by
  have hstep : ∀ (st : List Brunnel) (comp : List ℕ),
      (if comp.length > 1 then
        st.map (fun b => if b.idx ∈ comp then {b with compoundGroup := some comp} else b)
      else st) = st.map (compoundStep comp) := by
    intro st comp
    by_cases h : comp.length > 1
    · simp [compoundStep, h]
    · rw [if_neg h]
      have hfun : compoundStep comp = fun b => b :=
        funext fun b => by simp [compoundStep, h]
      rw [hfun]
      simp
  have : createCompoundGroups s comps
      = comps.foldl (fun st comp => st.map (compoundStep comp)) s := by
    unfold createCompoundGroups
    induction comps generalizing s with
    | nil => rfl
    | cons c cs ih => simp only [List.foldl_cons, ← hstep, ih]
  rw [this, foldl_map_comm]

/-- The components, as idx lists, that one kind-restricted pass works with. -/
def compsOfType (arr : List Brunnel) : List (List ℕ) :=
  (findConnectedComponents arr).map fun comp => comp.map fun i => (arr.get i).idx

/-- The per-element effect of `_processCompoundBrunnelsForType`. -/
def compoundElemForType (arr : List Brunnel) (b : Brunnel) : Brunnel :=
  if arr.length ≤ 1 then b
  else (compsOfType arr).foldl (fun x c => compoundStep c x) b

theorem processCompoundBrunnelsForType_eq_map (s arr : List Brunnel) :
    processCompoundBrunnelsForType s arr = s.map (compoundElemForType arr) := by
  by_cases h : arr.length ≤ 1
  · have hfun : compoundElemForType arr = fun b => b :=
      funext fun b => by simp [compoundElemForType, h]
    rw [hfun]
    simp [processCompoundBrunnelsForType, h]
  · simp [processCompoundBrunnelsForType, compoundElemForType, h,
      createCompoundGroups_eq_map, compsOfType]

/-- The per-element effect of the whole compound-detection stage. -/
def compoundElem (s : List Brunnel) (b : Brunnel) : Brunnel :=
  compoundElemForType (s.filter fun x => x.type == BrunnelType.tunnel)
    (compoundElemForType (s.filter fun x => x.type == BrunnelType.bridge) b)

theorem findCompoundBrunnels_eq_map (s : List Brunnel) :
    findCompoundBrunnels s = s.map (compoundElem s) := by
  unfold findCompoundBrunnels compoundElem
  rw [processCompoundBrunnelsForType_eq_map, processCompoundBrunnelsForType_eq_map,
    List.map_map]
  rfl

/-- The non-`compoundGroup` fields survive compound detection untouched. -/
theorem compoundFold_fields (comps : List (List ℕ)) (b : Brunnel) :
    (comps.foldl (fun x c => compoundStep c x) b).idx = b.idx ∧
    (comps.foldl (fun x c => compoundStep c x) b).id = b.id ∧
    (comps.foldl (fun x c => compoundStep c x) b).type = b.type ∧
    (comps.foldl (fun x c => compoundStep c x) b).geometry = b.geometry ∧
    (comps.foldl (fun x c => compoundStep c x) b).nodes = b.nodes ∧
    (comps.foldl (fun x c => compoundStep c x) b).routeSpan = b.routeSpan ∧
    (comps.foldl (fun x c => compoundStep c x) b).exclusionReason = b.exclusionReason ∧
    (comps.foldl (fun x c => compoundStep c x) b).selected = b.selected ∧
    (comps.foldl (fun x c => compoundStep c x) b).overlapGroup = b.overlapGroup := by
  induction comps generalizing b with
  | nil => simp
  | cons c cs ih =>
    have hstep : ((compoundStep c b).idx = b.idx ∧ (compoundStep c b).id = b.id ∧
        (compoundStep c b).type = b.type ∧ (compoundStep c b).geometry = b.geometry ∧
        (compoundStep c b).nodes = b.nodes ∧ (compoundStep c b).routeSpan = b.routeSpan ∧
        (compoundStep c b).exclusionReason = b.exclusionReason ∧
        (compoundStep c b).selected = b.selected ∧
        (compoundStep c b).overlapGroup = b.overlapGroup) := by
      unfold compoundStep
      by_cases h1 : c.length > 1 <;> by_cases h2 : b.idx ∈ c <;> simp [h1, h2]
    have := ih (compoundStep c b)
    simp only [List.foldl_cons]
    exact ⟨hstep.1 ▸ this.1, hstep.2.1 ▸ this.2.1, hstep.2.2.1 ▸ this.2.2.1,
      hstep.2.2.2.1 ▸ this.2.2.2.1, hstep.2.2.2.2.1 ▸ this.2.2.2.2.1,
      hstep.2.2.2.2.2.1 ▸ this.2.2.2.2.2.1, hstep.2.2.2.2.2.2.1 ▸ this.2.2.2.2.2.2.1,
      hstep.2.2.2.2.2.2.2.1 ▸ this.2.2.2.2.2.2.2.1,
      hstep.2.2.2.2.2.2.2.2 ▸ this.2.2.2.2.2.2.2.2⟩

theorem compoundElem_fields (s : List Brunnel) (b : Brunnel) :
    (compoundElem s b).idx = b.idx ∧ (compoundElem s b).id = b.id ∧
    (compoundElem s b).type = b.type ∧ (compoundElem s b).geometry = b.geometry ∧
    (compoundElem s b).nodes = b.nodes ∧ (compoundElem s b).routeSpan = b.routeSpan ∧
    (compoundElem s b).exclusionReason = b.exclusionReason ∧
    (compoundElem s b).selected = b.selected ∧
    (compoundElem s b).overlapGroup = b.overlapGroup := by
  unfold compoundElem compoundElemForType
  by_cases h1 : (s.filter fun x => x.type == BrunnelType.bridge).length ≤ 1 <;>
    by_cases h2 : (s.filter fun x => x.type == BrunnelType.tunnel).length ≤ 1 <;>
      simp [h1, h2, compoundFold_fields]

/-- Per-element effect of `markOverlapGroup`. -/
def overlapMark (gIdx : List ℕ) (b : Brunnel) : Brunnel :=
  if b.idx ∈ gIdx then {b with overlapGroup := some gIdx} else b

/-- Per-element effect of `excludeAlternative`. -/
def overlapExclude (i : ℕ) (b : Brunnel) : Brunnel :=
  if b.idx = i then {b with exclusionReason := some ExclusionReason.alternative} else b

/-- The per-element effect of processing one overlap group. -/
def overlapElem {P : Type} (t : TurfI P) (routeCoords : List Coord)
    (g : List Brunnel) (b : Brunnel) : Brunnel :=
  if g.length > 1 then
    match insertionSortBy (fun a b => decide (a.2 ≤ b.2))
        (g.map fun x => (x, calculateAverageDistanceToRoute t x routeCoords)) with
    | [] => overlapMark (g.map fun x => x.idx) b
    | _ :: rest =>
      rest.foldl (fun x p => overlapExclude p.1.idx x) (overlapMark (g.map fun x => x.idx) b)
  else b

theorem markOverlapGroup_eq_map (s : List Brunnel) (gIdx : List ℕ) :
    markOverlapGroup s gIdx = s.map (overlapMark gIdx) := rfl

theorem excludeAlternative_eq_map (s : List Brunnel) (i : ℕ) :
    excludeAlternative s i = s.map (overlapExclude i) := rfl

theorem processOverlapGroup_eq_map {P : Type} (t : TurfI P) (routeCoords : List Coord)
    (s : List Brunnel) (g : List Brunnel) :
    processOverlapGroup t routeCoords s g = s.map (overlapElem t routeCoords g) := by
  unfold processOverlapGroup overlapElem
  by_cases h : g.length > 1
  · simp only [h, if_true, markOverlapGroup_eq_map]
    rcases hs : insertionSortBy (fun a b => decide (a.2 ≤ b.2))
        (g.map fun x => (x, calculateAverageDistanceToRoute t x routeCoords)) with _ | ⟨c, rest⟩
    · rw [hs]
    · rw [hs]
      have hfold : ∀ (st : List Brunnel),
          rest.foldl (fun st p => excludeAlternative st p.1.idx) st
            = rest.foldl (fun st p => st.map (overlapExclude p.1.idx)) st := fun st => rfl
      show rest.foldl (fun st p => excludeAlternative st p.1.idx)
            (s.map (overlapMark (g.map fun x => x.idx)))
          = s.map fun b => rest.foldl (fun x p => overlapExclude p.1.idx x)
              (overlapMark (g.map fun x => x.idx) b)
      rw [hfold, foldl_map_comm, List.map_map]
      rfl
  · simp [h]

theorem handleOverlaps_eq_map {P : Type} (t : TurfI P) (s : List Brunnel)
    (routeCoords : List Coord) :
    handleOverlaps t s routeCoords
      = s.map fun b => (buildOverlapGroups (overlapCandidates s)).foldl
          (fun x g => overlapElem t routeCoords g x) b := by
  unfold handleOverlaps
  have hfold : ∀ (gs : List (List Brunnel)) (st : List Brunnel),
      gs.foldl (processOverlapGroup t routeCoords) st
        = gs.foldl (fun st g => st.map (overlapElem t routeCoords g)) st := by
    intro gs
    induction gs with
    | nil => intro st; rfl
    | cons g gs ih =>
      intro st
      simp only [List.foldl_cons, processOverlapGroup_eq_map, ih]
  rw [hfold, foldl_map_comm]

/-- How the overlap resolver may change a single brunnel: every field is
preserved except `overlapGroup` (possibly set) and `exclusionReason`
(possibly set to `alternative`). -/
def OverlapEvolved (b b' : Brunnel) : Prop :=
  b'.idx = b.idx ∧ b'.id = b.id ∧ b'.type = b.type ∧ b'.geometry = b.geometry ∧
  b'.nodes = b.nodes ∧ b'.routeSpan = b.routeSpan ∧ b'.compoundGroup = b.compoundGroup ∧
  b'.selected = b.selected ∧
  (b'.exclusionReason = b.exclusionReason ∨ b'.exclusionReason = some ExclusionReason.alternative)

theorem overlapEvolved_refl (b : Brunnel) : OverlapEvolved b b :=
  ⟨rfl, rfl, rfl, rfl, rfl, rfl, rfl, rfl, Or.inl rfl⟩

theorem overlapEvolved_trans {a b c : Brunnel}
    (h1 : OverlapEvolved a b) (h2 : OverlapEvolved b c) : OverlapEvolved a c := by
  obtain ⟨e1, e2, e3, e4, e5, e6, e7, e8, e9⟩ := h1
  obtain ⟨f1, f2, f3, f4, f5, f6, f7, f8, f9⟩ := h2
  refine ⟨f1.trans e1, f2.trans e2, f3.trans e3, f4.trans e4, f5.trans e5,
    f6.trans e6, f7.trans e7, f8.trans e8, ?_⟩
  rcases f9 with f9 | f9
  · rw [f9]; exact e9
  · exact Or.inr f9

theorem overlapMark_evolved (gIdx : List ℕ) (b : Brunnel) :
    OverlapEvolved b (overlapMark gIdx b) := by
  unfold overlapMark
  by_cases h : b.idx ∈ gIdx <;> simp [h, OverlapEvolved]

theorem overlapExclude_evolved (i : ℕ) (b : Brunnel) :
    OverlapEvolved b (overlapExclude i b) := by
  unfold overlapExclude
  by_cases h : b.idx = i <;> simp [h, OverlapEvolved]

theorem overlapExcludeFold_evolved (l : List (Brunnel × ℚ)) (b : Brunnel) :
    OverlapEvolved b (l.foldl (fun x p => overlapExclude p.1.idx x) b) := by
  induction l generalizing b with
  | nil => exact overlapEvolved_refl b
  | cons p l ih =>
    exact overlapEvolved_trans (overlapExclude_evolved p.1.idx b) (ih _)

theorem overlapElem_evolved {P : Type} (t : TurfI P) (routeCoords : List Coord)
    (g : List Brunnel) (b : Brunnel) :
    OverlapEvolved b (overlapElem t routeCoords g b) := by
  unfold overlapElem
  by_cases h : g.length > 1
  · simp only [h, if_true]
    rcases hsort : insertionSortBy (fun a b => decide (a.2 ≤ b.2))
        (g.map fun x => (x, calculateAverageDistanceToRoute t x routeCoords)) with _ | ⟨c, rest⟩
    · rw [hsort]
      exact overlapMark_evolved _ b
    · rw [hsort]
      exact overlapEvolved_trans (overlapMark_evolved _ b) (overlapExcludeFold_evolved rest _)
  · simp only [h, if_false]
    exact overlapEvolved_refl b

theorem overlapGroupFold_evolved {P : Type} (t : TurfI P) (routeCoords : List Coord)
    (gs : List (List Brunnel)) (b : Brunnel) :
    OverlapEvolved b (gs.foldl (fun x g => overlapElem t routeCoords g x) b) := by
  induction gs generalizing b with
  | nil => exact overlapEvolved_refl b
  | cons g gs ih =>
    exact overlapEvolved_trans (overlapElem_evolved t routeCoords g b) (ih _)

/-! ### Success-run destructuring of the pipeline -/

theorem lineString_ok_length (coords l : List Coord)
    (h : lineString coords = Except.ok l) : 2 ≤ coords.length ∧ l = coords := by
  unfold lineString at h
  by_cases hlen : coords.length < 2
  · simp [hlen] at h
  · simp [hlen] at h
    exact ⟨by omega, h.symm⟩

theorem lineString_short (coords : List Coord) (h : coords.length < 2) :
    lineString coords = Except.error "coordinates must be an array of two or more positions" := by
  simp [lineString, h]

theorem brunnelWithin_ok_length {P : Type} (t : TurfI P) (g : List Coord) (buf : P)
    (w : Bool) (h : brunnelWithin t g buf = Except.ok w) : 2 ≤ g.length := by
  by_cases hlen : g.length < 2
  · rw [brunnelWithin.eq_def, lineString_short g hlen] at h
    have h1 : (Except.error "coordinates must be an array of two or more positions"
        : Except String Bool) = Except.ok w := h
    cases h1
  · omega

theorem createRouteBuffer_ok_length {P : Type} (t : TurfI P) (routeCoords : List Coord)
    (bufferMeters : ℚ) (buf : P)
    (h : createRouteBuffer t routeCoords bufferMeters = Except.ok buf) :
    2 ≤ routeCoords.length := by
  by_cases hlen : routeCoords.length < 2
  · rw [createRouteBuffer, lineString_short routeCoords hlen] at h
    simp [Except.bind] at h
  · omega

theorem brunnelWithin_short {P : Type} (t : TurfI P) (g : List Coord) (buf : P)
    (h : g.length < 2) :
    brunnelWithin t g buf
      = Except.error "coordinates must be an array of two or more positions" := by
  rw [brunnelWithin.eq_def, lineString_short g h]
  rfl

theorem filterContained_ok_eq {P : Type} (t : TurfI P) (buf : P) :
    ∀ (brs l : List Brunnel), filterContained t buf brs = Except.ok l →
      l = brs.filter fun b => (brunnelWithin t b.geometry buf).toOption.getD false := by
  intro brs
  induction brs with
  | nil =>
    intro l h
    have h1 : Except.ok ([] : List Brunnel) = Except.ok l := h
    cases h1
    rfl
  | cons b rest ih =>
    intro l h
    rcases hw : brunnelWithin t b.geometry buf with e | w
    · rw [filterContained, hw] at h
      have h1 : (Except.error e : Except String (List Brunnel)) = Except.ok l := h
      cases h1
    · rcases htail : filterContained t buf rest with e | tail
      · rw [filterContained, hw, htail] at h
        have h1 : (Except.error e : Except String (List Brunnel)) = Except.ok l := h
        cases h1
      · rw [filterContained, hw, htail] at h
        cases w with
        | false =>
          have h1 : Except.ok tail = Except.ok l := h
          injection h1 with h2
          subst h2
          simp [List.filter_cons, hw, Except.toOption]
          exact ih _ htail
        | true =>
          have h1 : Except.ok (b :: tail) = Except.ok l := h
          injection h1 with h2
          subst h2
          simp [List.filter_cons, hw, Except.toOption]
          exact ih _ htail

theorem filterContained_error_of_short {P : Type} (t : TurfI P) (buf : P) :
    ∀ (brs : List Brunnel) (b : Brunnel), b ∈ brs → b.geometry.length < 2 →
      ∃ e, filterContained t buf brs = Except.error e := by
  intro brs
  induction brs with
  | nil => intro b hb; simp at hb
  | cons hd rest ih =>
    intro b hb hlen
    rcases List.mem_cons.mp hb with hb | hb
    · subst hb
      refine ⟨"coordinates must be an array of two or more positions", ?_⟩
      rw [filterContained, brunnelWithin_short t b.geometry buf hlen]
      rfl
    · rcases hw : brunnelWithin t hd.geometry buf with e | w
      · exact ⟨e, by rw [filterContained, hw]; rfl⟩
      · obtain ⟨e, he⟩ := ih b hb hlen
        refine ⟨e, ?_⟩
        rw [filterContained, hw, he]
        cases w <;> rfl

/-- The part of `applyFiltering` after the containment filter, as a function
of the containment survivors. -/
def pipelineTail {P : Type} (t : TurfI P) (route : Route) (options : AnalysisOptions)
    (l1 : List Brunnel) : List Brunnel :=
  initializeSelectedState (handleOverlaps t
    (if options.bearingTolerance > 0 then
      filterAligned t (findCompoundBrunnels (calculateRouteSpans t l1 route.coordinates))
        route.coordinates route.cumulativeDistances options.bearingTolerance
    else findCompoundBrunnels (calculateRouteSpans t l1 route.coordinates))
    route.coordinates)

theorem applyFiltering_ok_destruct {P : Type} (t : TurfI P) (route : Route)
    (options : AnalysisOptions) (brunnels out : List Brunnel)
    (h : applyFiltering t route options brunnels = Except.ok out) :
    ∃ buf l1, createRouteBuffer t route.coordinates options.routeBuffer = Except.ok buf ∧
      filterContained t buf brunnels = Except.ok l1 ∧
      out = pipelineTail t route options l1 := by
  rcases hbuf : createRouteBuffer t route.coordinates options.routeBuffer with e | buf
  · rw [applyFiltering.eq_def, hbuf] at h
    have h1 : (Except.error e : Except String (List Brunnel)) = Except.ok out := h
    cases h1
  · rw [applyFiltering.eq_def, hbuf] at h
    have h2 : (do
        let brunnels1 ← filterContained t buf brunnels
        pure (pipelineTail t route options brunnels1) : Except String (List Brunnel))
          = Except.ok out := h
    rcases hfc : filterContained t buf brunnels with e | l1
    · rw [hfc] at h2
      have h3 : (Except.error e : Except String (List Brunnel)) = Except.ok out := h2
      cases h3
    · rw [hfc] at h2
      have h3 : Except.ok (pipelineTail t route options l1) = Except.ok out := h2
      injection h3 with h4
      exact ⟨buf, l1, rfl, hfc, h4.symm⟩

/-- Per-element effect of `calculateRouteSpans`. -/
def spanElem {P : Type} (t : TurfI P) (routeCoords : List Coord) (b : Brunnel) : Brunnel :=
  {b with routeSpan := calculateRouteSpan t b.geometry routeCoords}

theorem calculateRouteSpans_eq_map {P : Type} (t : TurfI P) (s : List Brunnel)
    (routeCoords : List Coord) :
    calculateRouteSpans t s routeCoords = s.map (spanElem t routeCoords) := rfl

/-- Per-element effect of `filterAligned`. -/
def alignElem {P : Type} (t : TurfI P) (routeCoords : List Coord)
    (cumulativeDistances : List ℚ) (toleranceDegrees : ℚ) (b : Brunnel) : Brunnel :=
  if b.isIncluded then
    if b.isAligned t routeCoords cumulativeDistances toleranceDegrees then b
    else {b with exclusionReason := some ExclusionReason.misaligned}
  else b

theorem filterAligned_eq_map {P : Type} (t : TurfI P) (s : List Brunnel)
    (routeCoords : List Coord) (cumulativeDistances : List ℚ) (toleranceDegrees : ℚ) :
    filterAligned t s routeCoords cumulativeDistances toleranceDegrees
      = s.map (alignElem t routeCoords cumulativeDistances toleranceDegrees) := rfl

theorem alignElem_fields {P : Type} (t : TurfI P) (routeCoords : List Coord)
    (cum : List ℚ) (tol : ℚ) (b : Brunnel) :
    (alignElem t routeCoords cum tol b).idx = b.idx ∧
    (alignElem t routeCoords cum tol b).id = b.id ∧
    (alignElem t routeCoords cum tol b).type = b.type ∧
    (alignElem t routeCoords cum tol b).geometry = b.geometry ∧
    (alignElem t routeCoords cum tol b).nodes = b.nodes ∧
    (alignElem t routeCoords cum tol b).routeSpan = b.routeSpan ∧
    (alignElem t routeCoords cum tol b).compoundGroup = b.compoundGroup ∧
    (alignElem t routeCoords cum tol b).overlapGroup = b.overlapGroup ∧
    (alignElem t routeCoords cum tol b).selected = b.selected ∧
    ((alignElem t routeCoords cum tol b).exclusionReason = b.exclusionReason ∨
      (alignElem t routeCoords cum tol b).exclusionReason = some ExclusionReason.misaligned) := by
  unfold alignElem
  by_cases h1 : b.isIncluded <;>
    by_cases h2 : b.isAligned t routeCoords cum tol <;> simp [h1, h2]

/-- Per-element effect of `initializeSelectedState`. -/
def selElem (b : Brunnel) : Brunnel :=
  {b with selected := b.isIncluded}

theorem initializeSelectedState_eq_map (s : List Brunnel) :
    initializeSelectedState s = s.map selElem := rfl

/-- Provenance of every brunnel in the post-containment pipeline tail: it is
the containment survivor with the same identity, its route span is the one
computed by the span stage, and its exclusion reason is its survivor's
(none), or `misaligned` when the alignment filter ran, or `alternative`. -/
theorem pipelineTail_mem {P : Type} (t : TurfI P) (route : Route)
    (options : AnalysisOptions) (l1 : List Brunnel) :
    ∀ b ∈ pipelineTail t route options l1, ∃ b0 ∈ l1,
      b.idx = b0.idx ∧ b.id = b0.id ∧ b.type = b0.type ∧ b.geometry = b0.geometry ∧
      b.nodes = b0.nodes ∧
      b.routeSpan = calculateRouteSpan t b0.geometry route.coordinates ∧
      (b.exclusionReason = b0.exclusionReason ∨
        (options.bearingTolerance > 0 ∧ b.exclusionReason = some ExclusionReason.misaligned) ∨
        b.exclusionReason = some ExclusionReason.alternative) := by
  intro b hb
  rw [pipelineTail, initializeSelectedState_eq_map, handleOverlaps_eq_map] at hb
  rw [List.map_map] at hb
  obtain ⟨b4, hb4, hb4e⟩ := List.mem_map.mp hb
  set l3 := findCompoundBrunnels (calculateRouteSpans t l1 route.coordinates) with hl3
  have hexists : ∃ b3 ∈ l3,
      (options.bearingTolerance > 0 ∧ b4 = alignElem t route.coordinates
        route.cumulativeDistances options.bearingTolerance b3) ∨ b4 = b3 := by
    by_cases htol : options.bearingTolerance > 0
    · rw [if_pos htol, filterAligned_eq_map] at hb4
      obtain ⟨b3, hb3, hb3e⟩ := List.mem_map.mp hb4
      exact ⟨b3, hb3, Or.inl ⟨htol, hb3e.symm⟩⟩
    · rw [if_neg htol] at hb4
      exact ⟨b4, hb4, Or.inr rfl⟩
  obtain ⟨b3, hb3, hb3e⟩ := hexists
  rw [hl3, findCompoundBrunnels_eq_map, calculateRouteSpans_eq_map, List.map_map] at hb3
  obtain ⟨b0, hb0, hb0e⟩ := List.mem_map.mp hb3
  refine ⟨b0, hb0, ?_⟩
  -- fields of b3 in terms of b0
  obtain ⟨c1, c2, c3, c4, c5, c6, c7, c8, c9⟩ :=
    compoundElem_fields (l1.map (spanElem t route.coordinates)) (spanElem t route.coordinates b0)
  have h3idx : b3.idx = b0.idx := by rw [← hb0e]; exact c1
  have h3id : b3.id = b0.id := by rw [← hb0e]; exact c2
  have h3type : b3.type = b0.type := by rw [← hb0e]; exact c3
  have h3geom : b3.geometry = b0.geometry := by rw [← hb0e]; exact c4
  have h3nodes : b3.nodes = b0.nodes := by rw [← hb0e]; exact c5
  have h3span : b3.routeSpan = calculateRouteSpan t b0.geometry route.coordinates := by
    rw [← hb0e]; exact c6
  have h3ex : b3.exclusionReason = b0.exclusionReason := by rw [← hb0e]; exact c7
  -- fields of b4 in terms of b3
  have h4 : b4.idx = b3.idx ∧ b4.id = b3.id ∧ b4.type = b3.type ∧
      b4.geometry = b3.geometry ∧ b4.nodes = b3.nodes ∧ b4.routeSpan = b3.routeSpan ∧
      (b4.exclusionReason = b3.exclusionReason ∨
        (options.bearingTolerance > 0 ∧ b4.exclusionReason = some ExclusionReason.misaligned)) := by
    rcases hb3e with ⟨htol, hb3e⟩ | hb3e
    · obtain ⟨a1, a2, a3, a4, a5, a6, _, _, _, a10⟩ :=
        alignElem_fields t route.coordinates route.cumulativeDistances
          options.bearingTolerance b3
      subst hb3e
      refine ⟨a1, a2, a3, a4, a5, a6, ?_⟩
      rcases a10 with a10 | a10
      · exact Or.inl a10
      · exact Or.inr ⟨htol, a10⟩
    · subst hb3e
      exact ⟨rfl, rfl, rfl, rfl, rfl, rfl, Or.inl rfl⟩
  -- fields of b in terms of b4
  obtain ⟨e1, e2, e3, e4, e5, e6, e7, e8, e9⟩ :=
    overlapGroupFold_evolved t route.coordinates
      (buildOverlapGroups (overlapCandidates
        (if options.bearingTolerance > 0 then
          filterAligned t l3 route.coordinates route.cumulativeDistances
            options.bearingTolerance
        else l3))) b4
  have hbidx : b.idx = b4.idx := by rw [← hb4e]; exact e1
  have hbid : b.id = b4.id := by rw [← hb4e]; exact e2
  have hbtype : b.type = b4.type := by rw [← hb4e]; exact e3
  have hbgeom : b.geometry = b4.geometry := by rw [← hb4e]; exact e4
  have hbnodes : b.nodes = b4.nodes := by rw [← hb4e]; exact e5
  have hbspan : b.routeSpan = b4.routeSpan := by rw [← hb4e]; exact e6
  have hbex : b.exclusionReason = b4.exclusionReason ∨
      b.exclusionReason = some ExclusionReason.alternative := by
    rw [← hb4e]; exact e9
  refine ⟨hbidx.trans (h4.1.trans h3idx), hbid.trans (h4.2.1.trans h3id),
    hbtype.trans (h4.2.2.1.trans h3type), hbgeom.trans (h4.2.2.2.1.trans h3geom),
    hbnodes.trans (h4.2.2.2.2.1.trans h3nodes),
    hbspan.trans (h4.2.2.2.2.2.1.trans h3span), ?_⟩
  rcases hbex with hbex | hbex
  · rcases h4.2.2.2.2.2.2 with h4x | h4x
    · exact Or.inl (hbex.trans (h4x.trans h3ex))
    · exact Or.inr (Or.inl ⟨h4x.1, hbex.trans h4x.2⟩)
  · exact Or.inr (Or.inr hbex)

theorem foldl_min_le_init (a : ℚ) (l : List ℚ) : l.foldl min a ≤ a := by
  induction l generalizing a with
  | nil => exact le_refl a
  | cons x l ih => exact (ih (min a x)).trans (min_le_left a x)

theorem init_le_foldl_max (a : ℚ) (l : List ℚ) : a ≤ l.foldl max a := by
  induction l generalizing a with
  | nil => exact le_refl a
  | cons x l ih => exact (le_max_left a x).trans (ih (max a x))

/-- With a route of at least two points and a nonempty polyline, the span
stage produces a span whose start does not exceed its end. -/
theorem calculateRouteSpan_spec {P : Type} (t : TurfI P)
    (brunnelCoords routeCoords : List Coord)
    (hroute : 2 ≤ routeCoords.length) (hgeom : brunnelCoords ≠ []) :
    ∃ sp, calculateRouteSpan t brunnelCoords routeCoords = some sp ∧
      sp.startDistance ≤ sp.endDistance := by
  have hls : lineString routeCoords = Except.ok routeCoords := by
    simp [lineString, Nat.not_lt.mpr hroute]
  rcases hg : brunnelCoords with _ | ⟨c, cs⟩
  · exact absurd hg hgeom
  · refine ⟨⟨(cs.map fun x => t.nearestLocation routeCoords x).foldl min
        (t.nearestLocation routeCoords c),
      (cs.map fun x => t.nearestLocation routeCoords x).foldl max
        (t.nearestLocation routeCoords c)⟩, ?_, ?_⟩
    · rw [calculateRouteSpan, hls]
      rfl
    · exact (foldl_min_le_init _ _).trans (init_le_foldl_max _ _)

theorem map_idx_of_pointwise (f : Brunnel → Brunnel) (hf : ∀ b, (f b).idx = b.idx)
    (s : List Brunnel) :
    (s.map f).map (fun b => b.idx) = s.map fun b => b.idx := by
  induction s with
  | nil => rfl
  | cons b s ih => simp [hf b, ih]

/-- The complete per-element effect of the post-containment pipeline tail on
one containment survivor (the overlap groups still depend on the whole
survivor list `l1`). -/
def tailElem {P : Type} (t : TurfI P) (route : Route) (options : AnalysisOptions)
    (l1 : List Brunnel) (b : Brunnel) : Brunnel :=
  selElem ((buildOverlapGroups (overlapCandidates
      (if options.bearingTolerance > 0 then
        filterAligned t (findCompoundBrunnels (calculateRouteSpans t l1 route.coordinates))
          route.coordinates route.cumulativeDistances options.bearingTolerance
      else findCompoundBrunnels (calculateRouteSpans t l1 route.coordinates)))).foldl
    (fun x g => overlapElem t route.coordinates g x)
    ((if options.bearingTolerance > 0 then
        alignElem t route.coordinates route.cumulativeDistances options.bearingTolerance
      else fun x => x)
      (compoundElem (l1.map (spanElem t route.coordinates)) (spanElem t route.coordinates b))))

theorem pipelineTail_eq_map {P : Type} (t : TurfI P) (route : Route)
    (options : AnalysisOptions) (l1 : List Brunnel) :
    pipelineTail t route options l1 = l1.map (tailElem t route options l1) := by
  rw [pipelineTail, initializeSelectedState_eq_map, handleOverlaps_eq_map, List.map_map]
  unfold tailElem
  by_cases htol : options.bearingTolerance > 0
  · simp only [if_pos htol]
    rw [filterAligned_eq_map, findCompoundBrunnels_eq_map, calculateRouteSpans_eq_map]
    simp only [List.map_map]
    rfl
  · simp only [if_neg htol]
    rw [findCompoundBrunnels_eq_map, calculateRouteSpans_eq_map]
    simp only [List.map_map]
    rfl

theorem tailElem_idx {P : Type} (t : TurfI P) (route : Route)
    (options : AnalysisOptions) (l1 : List Brunnel) (b : Brunnel) :
    (tailElem t route options l1 b).idx = b.idx := by
  unfold tailElem
  refine ((overlapGroupFold_evolved t route.coordinates _ _).1).trans ?_
  by_cases htol : options.bearingTolerance > 0
  · simp only [if_pos htol]
    exact ((alignElem_fields t route.coordinates route.cumulativeDistances
      options.bearingTolerance _).1).trans (compoundElem_fields _ _).1
  · simp only [if_neg htol]
    exact (compoundElem_fields _ _).1

/-- Every post-containment stage preserves the sequence of identities. -/
theorem pipelineTail_map_idx {P : Type} (t : TurfI P) (route : Route)
    (options : AnalysisOptions) (l1 : List Brunnel) :
    (pipelineTail t route options l1).map (fun b => b.idx)
      = l1.map fun b => b.idx := by
  rw [pipelineTail_eq_map]
  exact map_idx_of_pointwise _ (tailElem_idx t route options l1) l1

/-- Claim C1: at the end of a full (successfully completed) pipeline run,
every Crossing whose `exclusionReason` is still null has a non-null
`routeSpan`, and that span satisfies `startDistance ≤ endDistance`. -/
theorem final_included_have_ordered_spans {P : Type} (t : TurfI P) (route : Route)
    (options : AnalysisOptions) (brunnels out : List Brunnel)
    (hok : applyFiltering t route options brunnels = Except.ok out) :
    ∀ b ∈ out, b.exclusionReason = none →
      ∃ sp, b.routeSpan = some sp ∧ sp.startDistance ≤ sp.endDistance := by
  obtain ⟨buf, l1, hbuf, hfc, hout⟩ :=
    applyFiltering_ok_destruct t route options brunnels out hok
  have hroute : 2 ≤ route.coordinates.length :=
    createRouteBuffer_ok_length t route.coordinates options.routeBuffer buf hbuf
  intro b hb _
  obtain ⟨b0, hb0, _, _, _, _, _, hspan, _⟩ :=
    pipelineTail_mem t route options l1 b (hout ▸ hb)
  have hl1 := filterContained_ok_eq t buf brunnels l1 hfc
  rw [hl1] at hb0
  obtain ⟨_, hpred⟩ := List.mem_filter.mp hb0
  have hb0len : b0.geometry ≠ [] := by
    rcases hw : brunnelWithin t b0.geometry buf with e | w
    · rw [hw] at hpred
      simp [Except.toOption] at hpred
    · intro hnil
      have := brunnelWithin_ok_length t b0.geometry buf w hw
      rw [hnil] at this
      simp at this
  obtain ⟨sp, hsp, hle⟩ :=
    calculateRouteSpan_spec t b0.geometry route.coordinates hroute hb0len
  exact ⟨sp, hspan.trans hsp, hle⟩

/-- Claim C1, witness: a successfully completed concrete run on the diagonal
bridge, whose final record is included with span 2-3 km. -/
theorem final_included_have_ordered_spans_witness :
    ∃ sp, (⟨0, 200, BrunnelType.bridge, [(2, 1), (3, 2)], [],
        some ⟨2, 3⟩, none, true, none, none⟩ : Brunnel).routeSpan = some sp ∧
      sp.startDistance ≤ sp.endDistance :=
  final_included_have_ordered_spans turfFlat routeTwoPoint ⟨10, 3, 0, 30⟩
    brunnelsDiagonal
    [⟨0, 200, BrunnelType.bridge, [(2, 1), (3, 2)], [], some ⟨2, 3⟩, none, true, none, none⟩]
    (by rfl)
    ⟨0, 200, BrunnelType.bridge, [(2, 1), (3, 2)], [], some ⟨2, 3⟩, none, true, none, none⟩
    (by simp) (by rfl)

/-- Claim C4, amended: in a successfully completed run, the final collection
is exactly the containment-surviving subset of the created candidates (same
identities in the same order); crossings rejected by the containment filter
are removed from the collection, and no later stage removes any. -/
theorem final_set_is_containment_survivors {P : Type} (t : TurfI P) (route : Route)
    (options : AnalysisOptions) (brunnels out : List Brunnel)
    (hok : applyFiltering t route options brunnels = Except.ok out) :
    ∃ buf, createRouteBuffer t route.coordinates options.routeBuffer = Except.ok buf ∧
      out.map (fun b => b.idx)
        = (brunnels.filter fun b =>
            (brunnelWithin t b.geometry buf).toOption.getD false).map fun b => b.idx := by
  obtain ⟨buf, l1, hbuf, hfc, hout⟩ :=
    applyFiltering_ok_destruct t route options brunnels out hok
  refine ⟨buf, hbuf, ?_⟩
  rw [hout, ← filterContained_ok_eq t buf brunnels l1 hfc]
  exact pipelineTail_map_idx t route options l1

/-- Claim C4 (amended), witness: on the two-candidate input where candidate 0
crosses the corridor boundary, the final identity sequence equals the
containment-surviving one. -/
theorem final_set_is_containment_survivors_witness :
    ∃ buf, createRouteBuffer turfEdge routeTwoPoint.coordinates (⟨10, 3, 0, 30⟩ :
        AnalysisOptions).routeBuffer = Except.ok buf ∧
      ((applyFiltering turfEdge routeTwoPoint ⟨10, 3, 0, 30⟩ brunnelsEdge).toOption.getD
          []).map (fun b => b.idx)
        = (brunnelsEdge.filter fun b =>
            (brunnelWithin turfEdge b.geometry buf).toOption.getD false).map fun b => b.idx :=
  final_set_is_containment_survivors turfEdge routeTwoPoint ⟨10, 3, 0, 30⟩ brunnelsEdge
    ((applyFiltering turfEdge routeTwoPoint ⟨10, 3, 0, 30⟩ brunnelsEdge).toOption.getD [])
    (by rfl)

/-- Claim C7, amended: there is no configuration validation; a negative
alignment tolerance is not rejected — it makes the pipeline behave exactly
as a tolerance of 0 does (the alignment filter is skipped; everything else
ignores the tolerance). -/
theorem negative_tolerance_behaves_as_zero {P : Type} (t : TurfI P) (route : Route)
    (options : AnalysisOptions) (brunnels : List Brunnel)
    (h : options.bearingTolerance < 0) :
    applyFiltering t route options brunnels
      = applyFiltering t route {options with bearingTolerance := 0} brunnels := by
  have h1 : ¬ options.bearingTolerance > 0 := by linarith
  simp [applyFiltering, h1]

/-- Claim C7 (amended), witness: tolerance -5 gives the same run as
tolerance 0 on a concrete input. -/
theorem negative_tolerance_behaves_as_zero_witness :
    applyFiltering turfFlat routeTwoPoint ⟨10, 3, -5, 30⟩ brunnelsTie
      = applyFiltering turfFlat routeTwoPoint ⟨10, 3, 0, 30⟩ brunnelsTie :=
  negative_tolerance_behaves_as_zero turfFlat routeTwoPoint ⟨10, 3, -5, 30⟩ brunnelsTie
    (by norm_num)

/-- Claim C8, amended: a `bearingTolerance` of 0 in the options object does
disable the alignment filter — no Crossing in a completed run is marked
`misaligned` — but a 0 entered in the configuration form is coerced to the
default 20 by `getAnalysisOptions`, so a zero configured through the form
does not disable the filter. -/
theorem zero_tolerance_skips_filter_but_form_zero_is_default {P : Type} (t : TurfI P)
    (route : Route) (options : AnalysisOptions) (brunnels out : List Brunnel)
    (q r : Option ℚ)
    (hopt : options.bearingTolerance = 0)
    (hin : ∀ b ∈ brunnels, b.exclusionReason = none)
    (hok : applyFiltering t route options brunnels = Except.ok out) :
    (getAnalysisOptions q r (some 0)).bearingTolerance = 20 ∧
    ∀ b ∈ out, b.exclusionReason ≠ some ExclusionReason.misaligned := by
  refine ⟨by simp [getAnalysisOptions, jsParseOr], ?_⟩
  obtain ⟨buf, l1, hbuf, hfc, hout⟩ :=
    applyFiltering_ok_destruct t route options brunnels out hok
  intro b hb
  obtain ⟨b0, hb0, _, _, _, _, _, _, hex⟩ :=
    pipelineTail_mem t route options l1 b (hout ▸ hb)
  have hb0mem : b0 ∈ brunnels := by
    rw [filterContained_ok_eq t buf brunnels l1 hfc] at hb0
    exact (List.mem_filter.mp hb0).1
  rcases hex with hex | hex | hex
  · rw [hex, hin b0 hb0mem]
    simp
  · rw [hopt] at hex
    exact absurd hex.1 (by norm_num)
  · rw [hex]
    simp

/-- Claim C8 (amended), witness: a concrete completed run with tolerance 0 on
the diagonal bridge; the form-entered 0 still becomes 20. -/
theorem zero_tolerance_skips_filter_witness :
    (getAnalysisOptions none none (some 0)).bearingTolerance = 20 ∧
    ∀ b ∈ [(⟨0, 200, BrunnelType.bridge, [(2, 1), (3, 2)], [],
        some ⟨2, 3⟩, none, true, none, none⟩ : Brunnel)],
      b.exclusionReason ≠ some ExclusionReason.misaligned :=
  zero_tolerance_skips_filter_but_form_zero_is_default turfBearing routeTwoPoint
    ⟨10, 3, 0, 30⟩ brunnelsDiagonal
    [⟨0, 200, BrunnelType.bridge, [(2, 1), (3, 2)], [], some ⟨2, 3⟩, none, true, none, none⟩]
    none none rfl
    (by decide)
    (by rfl)

/-- Claim C6, amended: a candidate polyline with fewer than 2 points makes
the containment stage raise (via `turf.lineString`), and the error
propagates: the whole filtering run returns an error instead of rejecting
only that candidate. -/
theorem short_polyline_error_propagates {P : Type} (t : TurfI P) (route : Route)
    (options : AnalysisOptions) (brunnels : List Brunnel) (b : Brunnel)
    (hb : b ∈ brunnels) (hlen : b.geometry.length < 2) :
    ∃ e, applyFiltering t route options brunnels = Except.error e := by
  rcases hbuf : createRouteBuffer t route.coordinates options.routeBuffer with e | buf
  · exact ⟨e, by rw [applyFiltering.eq_def, hbuf]; rfl⟩
  · obtain ⟨e, he⟩ := filterContained_error_of_short t buf brunnels b hb hlen
    refine ⟨e, ?_⟩
    rw [applyFiltering.eq_def, hbuf]
    show (do
        let brunnels1 ← filterContained t buf brunnels
        pure (pipelineTail t route options brunnels1) : Except String (List Brunnel))
      = Except.error e
    rw [he]
    rfl

/-- Claim C6 (amended), witness: the concrete single-point candidate makes
the whole run return an error. -/
theorem short_polyline_error_propagates_witness :
    ∃ e, applyFiltering turfFlat routeTwoPoint ⟨10, 3, 20, 30⟩
      [mkBrunnel 1 ⟨78, BrunnelType.bridge, [(1, 1)], []⟩] = Except.error e :=
  short_polyline_error_propagates turfFlat routeTwoPoint ⟨10, 3, 20, 30⟩
    [mkBrunnel 1 ⟨78, BrunnelType.bridge, [(1, 1)], []⟩]
    (mkBrunnel 1 ⟨78, BrunnelType.bridge, [(1, 1)], []⟩)
    (by decide) (by decide)

/-! ### Overlap-group structure lemmas -/

theorem addToOverlapGroups_join_perm (groups : List (List Brunnel)) (b : Brunnel) :
    ((addToOverlapGroups groups b).flatten).Perm (groups.flatten ++ [b]) := by
  induction groups with
  | nil => simp [addToOverlapGroups]
  | cons g gs ih =>
    by_cases h : g.any fun other =>
      routeSpansOverlap (spanOrDefault b) (spanOrDefault other)
    · simp only [addToOverlapGroups, h, if_true]
      simp only [List.flatten_cons, List.append_assoc]
      exact (List.perm_append_left_iff g).mpr (List.perm_append_comm)
    · simp only [addToOverlapGroups, h, if_false]
      simp only [List.flatten_cons, List.append_assoc]
      exact (List.perm_append_left_iff g).mpr ih

theorem buildOverlapGroups_join_perm (reps : List Brunnel) :
    ((buildOverlapGroups reps).flatten).Perm reps := by
  have hgen : ∀ (rs : List Brunnel) (groups : List (List Brunnel)),
      ((rs.foldl addToOverlapGroups groups).flatten).Perm (groups.flatten ++ rs) := by
    intro rs
    induction rs with
    | nil => intro groups; simp
    | cons r rs ih =>
      intro groups
      simp only [List.foldl_cons]
      refine (ih (addToOverlapGroups groups r)).trans ?_
      have h1 := (addToOverlapGroups_join_perm groups r).append_right rs
      have h2 : (groups.flatten ++ [r]) ++ rs = groups.flatten ++ (r :: rs) := by simp
      exact h2 ▸ h1
  simpa [buildOverlapGroups] using hgen reps []

theorem buildOverlapGroups_members (reps : List Brunnel) (g : List Brunnel)
    (hg : g ∈ buildOverlapGroups reps) (x : Brunnel) (hx : x ∈ g) : x ∈ reps :=
  (buildOverlapGroups_join_perm reps).mem_iff.mp (List.mem_flatten.mpr ⟨g, hg, hx⟩)

theorem overlapExcludeFold_id (l : List (Brunnel × ℚ)) (b : Brunnel)
    (h : ∀ p ∈ l, p.1.idx ≠ b.idx) :
    l.foldl (fun x p => overlapExclude p.1.idx x) b = b := by
  induction l with
  | nil => rfl
  | cons p l ih =>
    have hstep : overlapExclude p.1.idx b = b := by
      unfold overlapExclude
      rw [if_neg]
      exact fun he => (h p (by simp)) he.symm
    simp only [List.foldl_cons, hstep]
    exact ih fun q hq => h q (by simp [hq])

theorem overlapElem_id_of_disjoint {P : Type} (t : TurfI P) (routeCoords : List Coord)
    (g : List Brunnel) (b : Brunnel) (h : ∀ x ∈ g, x.idx ≠ b.idx) :
    overlapElem t routeCoords g b = b := by
  unfold overlapElem
  by_cases hlen : g.length > 1
  · simp only [hlen, if_true]
    have hmark : overlapMark (g.map fun x => x.idx) b = b := by
      unfold overlapMark
      rw [if_neg]
      intro hmem
      obtain ⟨x, hx, hxe⟩ := List.mem_map.mp hmem
      exact h x hx hxe
    rcases hsort : insertionSortBy (fun a b => decide (a.2 ≤ b.2))
        (g.map fun x => (x, calculateAverageDistanceToRoute t x routeCoords)) with _ | ⟨c, rest⟩
    · rw [hsort, hmark]
    · rw [hsort, hmark]
      have hperm := insertionSortBy_perm (fun a b => decide (a.2 ≤ b.2))
        (g.map fun x => (x, calculateAverageDistanceToRoute t x routeCoords))
      rw [hsort] at hperm
      refine overlapExcludeFold_id rest b ?_
      intro p hp
      have hpairs : p ∈ g.map fun x => (x, calculateAverageDistanceToRoute t x routeCoords) :=
        hperm.mem_iff.mp (List.mem_cons_of_mem c hp)
      obtain ⟨x, hx, hxe⟩ := List.mem_map.mp hpairs
      rw [← hxe]
      exact h x hx
  · simp only [hlen, if_false]

theorem overlapFold_id_of_disjoint {P : Type} (t : TurfI P) (routeCoords : List Coord)
    (gs : List (List Brunnel)) (b : Brunnel)
    (h : ∀ g ∈ gs, ∀ x ∈ g, x.idx ≠ b.idx) :
    gs.foldl (fun x g => overlapElem t routeCoords g x) b = b := by
  induction gs with
  | nil => rfl
  | cons g gs ih =>
    simp only [List.foldl_cons, overlapElem_id_of_disjoint t routeCoords g b (h g (by simp))]
    exact ih fun g' hg' => h g' (by simp [hg'])

/-- Claim C10: a Crossing whose `routeSpan` is null when the alignment filter
runs passes `isAligned` without examining any bearings, is never assigned
`misaligned`, is not among the candidates the overlap resolver considers, and
after the alignment and overlap stages its record still has
`exclusionReason = none` and a null span. -/
theorem null_span_passes_alignment_and_overlaps {P : Type} (t : TurfI P)
    (routeCoords : List Coord) (cum : List ℚ) (tol : ℚ) (s : List Brunnel) (b : Brunnel)
    (hb : b ∈ s) (hspan : b.routeSpan = none) (hex : b.exclusionReason = none)
    (hnd : (s.map fun x => x.idx).Nodup) :
    b.isAligned t routeCoords cum tol = true ∧
    b ∉ overlapCandidates (filterAligned t s routeCoords cum tol) ∧
    b ∈ handleOverlaps t (filterAligned t s routeCoords cum tol) routeCoords := by
  have hinc : b.isIncluded = true := by simp [Brunnel.isIncluded, hex]
  have haligned : b.isAligned t routeCoords cum tol = true := by
    rw [Brunnel.isAligned.eq_def, hspan]
  have halign : alignElem t routeCoords cum tol b = b := by
    unfold alignElem
    rw [if_pos hinc, if_pos haligned]
  have hbmem : b ∈ filterAligned t s routeCoords cum tol := by
    rw [filterAligned_eq_map]
    exact List.mem_map.mpr ⟨b, hb, halign⟩
  refine ⟨haligned, ?_, ?_⟩
  · intro hcand
    have := (List.mem_filter.mp hcand).2
    simp [hspan] at this
  · set s1 := filterAligned t s routeCoords cum tol with hs1
    have hnd1 : (s1.map fun x => x.idx).Nodup := by
      rw [hs1, filterAligned_eq_map,
        map_idx_of_pointwise _ (fun x => (alignElem_fields t routeCoords cum tol x).1)]
      exact hnd
    rw [handleOverlaps_eq_map]
    refine List.mem_map.mpr ⟨b, hbmem, ?_⟩
    apply overlapFold_id_of_disjoint
    intro g hg x hx hxidx
    have hxreps := buildOverlapGroups_members (overlapCandidates s1) g hg x hx
    have hxmem : x ∈ s1 := (List.mem_filter.mp hxreps).1
    have hxsome := (List.mem_filter.mp hxreps).2
    have hxb : x = b := by
      have hinj := List.inj_on_of_nodup_map hnd1
      exact hinj hxmem hbmem hxidx
    rw [hxb, hspan] at hxsome
    simp at hxsome

/-- Claim C10, witness: a concrete state with one null-span included crossing
and one spanned crossing; the null-span crossing survives both stages
unchanged. -/
theorem null_span_passes_witness :
    (⟨0, 500, BrunnelType.bridge, [(1, 0), (1, 1)], [], none, none, true, none,
        none⟩ : Brunnel).isAligned turfFlat [(0, 0), (10, 0)] [0, 10000] 20 = true ∧
    (⟨0, 500, BrunnelType.bridge, [(1, 0), (1, 1)], [], none, none, true, none,
        none⟩ : Brunnel) ∉ overlapCandidates (filterAligned turfFlat
      [⟨0, 500, BrunnelType.bridge, [(1, 0), (1, 1)], [], none, none, true, none, none⟩,
       ⟨1, 501, BrunnelType.bridge, [(2, 0), (2, 1)], [], some ⟨2, 2⟩, none, true, none, none⟩]
      [(0, 0), (10, 0)] [0, 10000] 20) ∧
    (⟨0, 500, BrunnelType.bridge, [(1, 0), (1, 1)], [], none, none, true, none,
        none⟩ : Brunnel) ∈ handleOverlaps turfFlat (filterAligned turfFlat
      [⟨0, 500, BrunnelType.bridge, [(1, 0), (1, 1)], [], none, none, true, none, none⟩,
       ⟨1, 501, BrunnelType.bridge, [(2, 0), (2, 1)], [], some ⟨2, 2⟩, none, true, none, none⟩]
      [(0, 0), (10, 0)] [0, 10000] 20) [(0, 0), (10, 0)] :=
  null_span_passes_alignment_and_overlaps turfFlat [(0, 0), (10, 0)] [0, 10000] 20
    [⟨0, 500, BrunnelType.bridge, [(1, 0), (1, 1)], [], none, none, true, none, none⟩,
     ⟨1, 501, BrunnelType.bridge, [(2, 0), (2, 1)], [], some ⟨2, 2⟩, none, true, none, none⟩]
    ⟨0, 500, BrunnelType.bridge, [(1, 0), (1, 1)], [], none, none, true, none, none⟩
    (by decide) (by decide) (by decide) (by decide)

/-! ### Lemmas for the overlap resolver's retained-member property -/

theorem findByIdx_map (s : List Brunnel) (f : Brunnel → Brunnel)
    (hf : ∀ b, (f b).idx = b.idx) (hnd : (s.map fun b => b.idx).Nodup) :
    ∀ x ∈ s, findByIdx (s.map f) x.idx = some (f x) := by
  induction s with
  | nil => intro x hx; simp at hx
  | cons b s ih =>
    intro x hx
    simp only [List.map_cons, List.nodup_cons] at hnd
    rcases List.mem_cons.mp hx with hx | hx
    · subst hx
      show List.find? (fun b => b.idx == x.idx) (f x :: s.map f) = some (f x)
      exact List.find?_cons_of_pos _ (by simp [hf x])
    · have hne : b.idx ≠ x.idx := by
        intro he
        exact hnd.1 (he ▸ List.mem_map.mpr ⟨x, hx, rfl⟩)
      show List.find? (fun b => b.idx == x.idx) (f b :: s.map f) = some (f x)
      rw [List.find?_cons_of_neg _ (by simp [hf b, hne])]
      exact ih hnd.2 x hx

theorem overlapExcludeFold_fixed (l : List (Brunnel × ℚ)) (b : Brunnel)
    (hb : b.exclusionReason = some ExclusionReason.alternative) :
    l.foldl (fun x p => overlapExclude p.1.idx x) b = b := by
  induction l with
  | nil => rfl
  | cons p l ih =>
    have hstep : overlapExclude p.1.idx b = b := by
      unfold overlapExclude
      by_cases h : b.idx = p.1.idx
      · rw [if_pos h, ← hb]
      · rw [if_neg h]
    simp only [List.foldl_cons, hstep]
    exact ih

theorem overlapExcludeFold_sets (l : List (Brunnel × ℚ)) (b : Brunnel)
    (hmem : ∃ p ∈ l, p.1.idx = b.idx) :
    l.foldl (fun x p => overlapExclude p.1.idx x) b
      = {b with exclusionReason := some ExclusionReason.alternative} := by
  induction l with
  | nil => obtain ⟨p, hp, _⟩ := hmem; simp at hp
  | cons p l ih =>
    by_cases h : b.idx = p.1.idx
    · have hstep : overlapExclude p.1.idx b
          = {b with exclusionReason := some ExclusionReason.alternative} := by
        unfold overlapExclude
        rw [if_pos h]
      simp only [List.foldl_cons, hstep]
      exact overlapExcludeFold_fixed l _ rfl
    · have hstep : overlapExclude p.1.idx b = b := by
        unfold overlapExclude
        rw [if_neg h]
      simp only [List.foldl_cons, hstep]
      refine ih ?_
      obtain ⟨q, hq, hqe⟩ := hmem
      rcases List.mem_cons.mp hq with hq | hq
      · exact absurd (hq ▸ hqe).symm h
      · exact ⟨q, hq, hqe⟩

set_option maxHeartbeats 1600000 in
/-- Claim C2: the overlap resolver considers exactly the included,
span-bearing representatives, groups them greedily in input order (the
groups partition the considered representatives), and for every group of two
or more members it keeps a member whose mean distance from its own geometry
points to the route is minimal (its record is unchanged except for
`overlapGroup`, and it remains included), marks every other member
`superseded-by-overlap` (source string `'alternative'`), and sets
`overlapGroup` to the full group on every member.  The route is assumed to
have at least two points, as in every run that reaches this stage. -/
theorem overlap_resolver_retains_closest {P : Type} (t : TurfI P)
    (routeCoords : List Coord) (s : List Brunnel)
    (hnd : (s.map fun b => b.idx).Nodup) (hroute : 2 ≤ routeCoords.length) :
    ((buildOverlapGroups (overlapCandidates s)).flatten).Perm (overlapCandidates s) ∧
    ∀ g ∈ buildOverlapGroups (overlapCandidates s), 2 ≤ g.length →
      ∃ keep ∈ g,
        (∀ x ∈ g, calculateAverageDistanceToRoute t keep routeCoords
            ≤ calculateAverageDistanceToRoute t x routeCoords) ∧
        keep.exclusionReason = none ∧
        findByIdx (handleOverlaps t s routeCoords) keep.idx
          = some {keep with overlapGroup := some (g.map fun x => x.idx)} ∧
        ∀ x ∈ g, x.idx ≠ keep.idx →
          findByIdx (handleOverlaps t s routeCoords) x.idx
            = some {x with
                exclusionReason := some ExclusionReason.alternative,
                overlapGroup := some (g.map fun x => x.idx)} := by
  have hperm := buildOverlapGroups_join_perm (overlapCandidates s)
  refine ⟨hperm, ?_⟩
  intro g hg hglen
  have hsubl : (overlapCandidates s).Sublist s := List.filter_sublist s
  have hndreps : ((overlapCandidates s).map fun b => b.idx).Nodup :=
    hnd.sublist (hsubl.map _)
  have hinj := List.inj_on_of_nodup_map hndreps
  have hrepsnd : (overlapCandidates s).Nodup := hndreps.of_map
  have hflatnd : ((buildOverlapGroups (overlapCandidates s)).flatten).Nodup :=
    hperm.nodup_iff.mpr hrepsnd
  have hjoin := List.nodup_flatten.mp hflatnd
  -- every group member is a considered representative
  have hmemreps : ∀ x ∈ g, x ∈ overlapCandidates s := fun x hx =>
    buildOverlapGroups_members (overlapCandidates s) g hg x hx
  -- decompose the group list around g
  obtain ⟨gs1, gs2, hdecomp⟩ := List.append_of_mem hg
  have hpw := hjoin.2
  rw [hdecomp] at hpw
  obtain ⟨hpw1, hpwmid, hcross⟩ := List.pairwise_append.mp hpw
  obtain ⟨hgdis2, hpw2⟩ := List.pairwise_cons.mp hpwmid
  -- members of other groups have different identities from members of g
  have hdis1 : ∀ g' ∈ gs1, ∀ y ∈ g', ∀ x ∈ g, y.idx ≠ x.idx := by
    intro g' hg' y hy x hx he
    have hyreps : y ∈ overlapCandidates s :=
      buildOverlapGroups_members _ _ (hdecomp ▸ List.mem_append_left _ hg') y hy
    have hxy : y = x := hinj hyreps (hmemreps x hx) he
    exact hcross g' hg' g (List.mem_cons_self g gs2) (hxy ▸ hy) hx
  have hdis2 : ∀ g' ∈ gs2, ∀ y ∈ g', ∀ x ∈ g, y.idx ≠ x.idx := by
    intro g' hg' y hy x hx he
    have hyreps : y ∈ overlapCandidates s :=
      buildOverlapGroups_members _ _
        (hdecomp ▸ List.mem_append_right _ (List.mem_cons_of_mem _ hg')) y hy
    have hxy : y = x := hinj hyreps (hmemreps x hx) he
    exact hgdis2 g' hg' hx (hxy ▸ hy)
  -- the whole fold acts on a member of g as the processing of g alone
  have hfoldg : ∀ x ∈ g,
      (buildOverlapGroups (overlapCandidates s)).foldl
        (fun b g' => overlapElem t routeCoords g' b) x
      = overlapElem t routeCoords g x := by
    intro x hx
    rw [hdecomp, List.foldl_append, List.foldl_cons]
    rw [overlapFold_id_of_disjoint t routeCoords gs1 x
      (fun g' hg' y hy => hdis1 g' hg' y hy x hx)]
    exact overlapFold_id_of_disjoint t routeCoords gs2 _
      (fun g' hg' y hy => by
        have h1 := hdis2 g' hg' y hy x hx
        have h2 : (overlapElem t routeCoords g x).idx = x.idx :=
          (overlapElem_evolved t routeCoords g x).1
        rw [h2]
        exact h1)
  -- set up the stable sort over the group's average distances
  have hglen1 : g.length > 1 := by omega
  have hgne : g ≠ [] := by
    intro he
    rw [he] at hglen
    simp at hglen
  have hpairsne : (g.map fun y => (y, calculateAverageDistanceToRoute t y routeCoords)) ≠ [] := by
    simp [hgne]
  rcases hsort : insertionSortBy (fun a b => decide (a.2 ≤ b.2))
      (g.map fun y => (y, calculateAverageDistanceToRoute t y routeCoords)) with _ | ⟨kp, rest⟩
  · exact absurd ((List.Perm.nil_eq ((hsort ▸ insertionSortBy_perm _ _))).symm) hpairsne
  have hhead : (insertionSortBy (fun a b => decide (a.2 ≤ b.2))
      (g.map fun y => (y, calculateAverageDistanceToRoute t y routeCoords))).head?
      = firstMinBy (fun p : Brunnel × ℚ => p.2)
          (g.map fun y => (y, calculateAverageDistanceToRoute t y routeCoords)) :=
    insertionSortBy_head_firstMinBy (fun p : Brunnel × ℚ => p.2) _
  rw [hsort] at hhead
  have hkpfm : firstMinBy (fun p : Brunnel × ℚ => p.2)
      (g.map fun y => (y, calculateAverageDistanceToRoute t y routeCoords)) = some kp :=
    hhead.symm.trans rfl
  have hkpmem := firstMinBy_mem _ _ _ hkpfm
  have hkple := firstMinBy_le _ _ _ hkpfm
  obtain ⟨keep, hkeepg, hkeq⟩ := List.mem_map.mp hkpmem
  -- identity distinctness within the sorted pairs
  have hkeepS : keep ∈ s := hsubl.subset (hmemreps keep hkeepg)
  have hgmapnd : (g.map fun x => x.idx).Nodup :=
    List.Nodup.map_on (fun x hx y hy he => hinj (hmemreps x hx) (hmemreps y hy) he)
      (hjoin.1 g hg)
  have hsortnd : ((kp :: rest).map fun p => p.1.idx).Nodup := by
    have hp1 : (kp :: rest).Perm
        (g.map fun y => (y, calculateAverageDistanceToRoute t y routeCoords)) := by
      rw [← hsort]
      exact insertionSortBy_perm _ _
    have hp2 := hp1.map fun p => p.1.idx
    refine hp2.nodup_iff.mpr ?_
    rw [List.map_map]
    exact hgmapnd
  have hkpidx : kp.1 = keep := by rw [← hkeq]
  have hrestne : ∀ p ∈ rest, p.1.idx ≠ keep.idx := by
    intro p hp he
    have hnodup := hsortnd
    simp only [List.map_cons, List.nodup_cons] at hnodup
    refine hnodup.1 ?_
    refine List.mem_map.mpr ⟨p, hp, ?_⟩
    rw [he, hkpidx]
  refine ⟨keep, hkeepg, ?_, ?_, ?_, ?_⟩
  · intro x hx
    have := hkple (x, calculateAverageDistanceToRoute t x routeCoords)
      (List.mem_map.mpr ⟨x, hx, rfl⟩)
    rw [← hkeq] at this
    exact this
  · have hkreps := hmemreps keep hkeepg
    have := (List.mem_filter.mp hkreps).2
    simp only [Bool.and_eq_true] at this
    have hinc := this.1.1
    simpa [Brunnel.isIncluded, Option.isNone_iff_eq_none] using hinc
  · -- the retained member's record: only overlapGroup changes
    have hmarkkeep : overlapMark (g.map fun x => x.idx) keep
        = {keep with overlapGroup := some (g.map fun x => x.idx)} := by
      unfold overlapMark
      rw [if_pos (List.mem_map.mpr ⟨keep, hkeepg, rfl⟩)]
    have hElemKeep : overlapElem t routeCoords g keep
        = {keep with overlapGroup := some (g.map fun x => x.idx)} := by
      unfold overlapElem
      rw [if_pos hglen1, hsort]
      show rest.foldl (fun x p => overlapExclude p.1.idx x)
          (overlapMark (g.map fun x => x.idx) keep)
        = {keep with overlapGroup := some (g.map fun x => x.idx)}
      rw [hmarkkeep]
      exact overlapExcludeFold_id rest _ (fun p hp => hrestne p hp)
    rw [handleOverlaps_eq_map, findByIdx_map s _
      (fun b => (overlapGroupFold_evolved t routeCoords _ b).1) hnd keep hkeepS]
    exact congrArg some ((hfoldg keep hkeepg).trans hElemKeep)
  · -- every other member: overlapGroup set and exclusionReason = alternative
    intro x hx hxne
    have hxS : x ∈ s := hsubl.subset (hmemreps x hx)
    have hxpair : (x, calculateAverageDistanceToRoute t x routeCoords) ∈ kp :: rest := by
      have h1 : (x, calculateAverageDistanceToRoute t x routeCoords)
          ∈ insertionSortBy (fun a b => decide (a.2 ≤ b.2))
            (g.map fun y => (y, calculateAverageDistanceToRoute t y routeCoords)) :=
        (insertionSortBy_perm _ _).mem_iff.mpr (List.mem_map.mpr ⟨x, hx, rfl⟩)
      rw [hsort] at h1
      exact h1
    have hxrest : (x, calculateAverageDistanceToRoute t x routeCoords) ∈ rest := by
      rcases List.mem_cons.mp hxpair with h1 | h1
      · exfalso
        apply hxne
        have h2 : x = kp.1 := congrArg Prod.fst h1
        rw [h2, hkpidx]
      · exact h1
    have hmarkx : overlapMark (g.map fun y => y.idx) x
        = {x with overlapGroup := some (g.map fun y => y.idx)} := by
      unfold overlapMark
      rw [if_pos (List.mem_map.mpr ⟨x, hx, rfl⟩)]
    have hElemx : overlapElem t routeCoords g x
        = {x with
            exclusionReason := some ExclusionReason.alternative,
            overlapGroup := some (g.map fun y => y.idx)} := by
      unfold overlapElem
      rw [if_pos hglen1, hsort]
      show rest.foldl (fun y p => overlapExclude p.1.idx y)
          (overlapMark (g.map fun y => y.idx) x)
        = {x with
            exclusionReason := some ExclusionReason.alternative,
            overlapGroup := some (g.map fun y => y.idx)}
      rw [hmarkx]
      exact overlapExcludeFold_sets rest _
        ⟨(x, calculateAverageDistanceToRoute t x routeCoords), hxrest, rfl⟩
    rw [handleOverlaps_eq_map, findByIdx_map s _
      (fun b => (overlapGroupFold_evolved t routeCoords _ b).1) hnd x hxS]
    exact congrArg some ((hfoldg x hx).trans hElemx)

/-- Two included bridges with identical (hence overlapping) spans 1-2 km;
under `turfFlat` their mean distances to the route are 2 km and 8 km. -/
def brunnelsOverlap : List Brunnel :=
  [⟨0, 600, BrunnelType.bridge, [(1, 2), (2, 2)], [], some ⟨1, 2⟩, none, true, none, none⟩,
   ⟨1, 601, BrunnelType.bridge, [(1, 8), (2, 8)], [], some ⟨1, 2⟩, none, true, none, none⟩]

/-- Claim C2, witness: the overlap resolver applied to the concrete
two-member overlapping state. -/
theorem overlap_resolver_retains_closest_witness :
    ((buildOverlapGroups (overlapCandidates brunnelsOverlap)).flatten).Perm
      (overlapCandidates brunnelsOverlap) ∧
    ∀ g ∈ buildOverlapGroups (overlapCandidates brunnelsOverlap), 2 ≤ g.length →
      ∃ keep ∈ g,
        (∀ x ∈ g, calculateAverageDistanceToRoute turfFlat keep [(0, 0), (10, 0)]
            ≤ calculateAverageDistanceToRoute turfFlat x [(0, 0), (10, 0)]) ∧
        keep.exclusionReason = none ∧
        findByIdx (handleOverlaps turfFlat brunnelsOverlap [(0, 0), (10, 0)]) keep.idx
          = some {keep with overlapGroup := some (g.map fun x => x.idx)} ∧
        ∀ x ∈ g, x.idx ≠ keep.idx →
          findByIdx (handleOverlaps turfFlat brunnelsOverlap [(0, 0), (10, 0)]) x.idx
            = some {x with
                exclusionReason := some ExclusionReason.alternative,
                overlapGroup := some (g.map fun x => x.idx)} :=
  overlap_resolver_retains_closest turfFlat [(0, 0), (10, 0)] brunnelsOverlap
    (by decide) (by decide)

/-! ### Compound detection: BFS computes connected components -/

/-- Two brunnels share an endpoint node identifier. -/
def sharesNode (b c : Brunnel) : Prop :=
  ∃ nd, nd ∈ b.nodes ∧ nd ∈ c.nodes

/-- Adjacency of the kind-restricted compound graph on array positions. -/
def adjA (arr : List Brunnel) (i j : Fin arr.length) : Prop :=
  sharesNode (arr.get i) (arr.get j)

theorem adjA_symm (arr : List Brunnel) {i j : Fin arr.length} (h : adjA arr i j) :
    adjA arr j i := by
  obtain ⟨nd, h1, h2⟩ := h
  exact ⟨nd, h2, h1⟩

/-- Reachability in the shared-node graph. -/
def locReach (arr : List Brunnel) : Fin arr.length → Fin arr.length → Prop :=
  Relation.ReflTransGen (adjA arr)

theorem locReach_symm (arr : List Brunnel) {i j : Fin arr.length}
    (h : locReach arr i j) : locReach arr j i := by
  induction h with
  | refl => exact Relation.ReflTransGen.refl
  | tail _ hstep ih =>
    exact Relation.ReflTransGen.trans (Relation.ReflTransGen.single (adjA_symm arr hstep)) ih

theorem mem_edgesFor (arr : List Brunnel) (nd : ℕ) (j : Fin arr.length) :
    j ∈ edgesFor arr nd ↔ nd ∈ (arr.get j).nodes := by
  unfold edgesFor
  simp only [List.mem_flatMap, List.mem_map, List.mem_filter]
  constructor
  · rintro ⟨i, _, x, ⟨hx, hxeq⟩, rfl⟩
    have : x = nd := by simpa using hxeq
    exact this ▸ hx
  · intro h
    exact ⟨j, List.mem_finRange j, nd, ⟨h, by simp⟩, rfl⟩

theorem mem_bfsPushes (arr : List Brunnel) (c : Fin arr.length)
    (visited1 : Finset (Fin arr.length)) (j : Fin arr.length) :
    j ∈ bfsPushes arr c visited1 ↔ adjA arr c j ∧ j ∉ visited1 := by
  unfold bfsPushes adjA sharesNode
  simp only [List.mem_flatMap, List.mem_filter, mem_edgesFor, decide_eq_true_eq]
  constructor
  · rintro ⟨nd, h1, h2, h3⟩
    exact ⟨⟨nd, h1, h2⟩, h3⟩
  · rintro ⟨⟨nd, h1, h2⟩, h3⟩
    exact ⟨nd, h1, h2, h3⟩

theorem bfsF_comp_not_visited (arr : List Brunnel) :
    ∀ (fuel : ℕ) (q : List (Fin arr.length)) (v : Finset (Fin arr.length))
      (x : Fin arr.length), x ∈ (bfsF arr fuel q v).1 → x ∉ v := by
  intro fuel
  induction fuel with
  | zero =>
    intro q v x hx
    cases q <;> simp [bfsF] at hx
  | succ fuel ih =>
    intro q v x hx
    cases q with
    | nil => simp [bfsF] at hx
    | cons c rest =>
      by_cases hc : c ∈ v
      · simp only [bfsF, if_pos hc] at hx
        exact ih rest v x hx
      · simp only [bfsF, if_neg hc, List.mem_cons] at hx
        rcases hx with hx | hx
        · exact hx ▸ hc
        · intro hxv
          exact ih _ _ x hx (Finset.mem_insert_of_mem hxv)

theorem bfsF_visited_iff (arr : List Brunnel) :
    ∀ (fuel : ℕ) (q : List (Fin arr.length)) (v : Finset (Fin arr.length))
      (x : Fin arr.length),
      x ∈ (bfsF arr fuel q v).2 ↔ x ∈ v ∨ x ∈ (bfsF arr fuel q v).1 := by
  intro fuel
  induction fuel with
  | zero =>
    intro q v x
    cases q <;> simp [bfsF]
  | succ fuel ih =>
    intro q v x
    cases q with
    | nil => simp [bfsF]
    | cons c rest =>
      by_cases hc : c ∈ v
      · simp only [bfsF, if_pos hc]
        exact ih rest v x
      · simp only [bfsF, if_neg hc, List.mem_cons]
        rw [ih]
        simp only [Finset.mem_insert]
        constructor
        · rintro ((h | h) | h)
          · exact Or.inr (Or.inl h)
          · exact Or.inl h
          · exact Or.inr (Or.inr h)
        · rintro (h | h | h)
          · exact Or.inl (Or.inr h)
          · exact Or.inl (Or.inl h)
          · exact Or.inr h

theorem bfsF_comp_nodup (arr : List Brunnel) :
    ∀ (fuel : ℕ) (q : List (Fin arr.length)) (v : Finset (Fin arr.length)),
      (bfsF arr fuel q v).1.Nodup := by
  intro fuel
  induction fuel with
  | zero =>
    intro q v
    cases q <;> simp [bfsF]
  | succ fuel ih =>
    intro q v
    cases q with
    | nil => simp [bfsF]
    | cons c rest =>
      by_cases hc : c ∈ v
      · simp only [bfsF, if_pos hc]
        exact ih rest v
      · simp only [bfsF, if_neg hc, List.nodup_cons]
        refine ⟨?_, ih _ _⟩
        intro hmem
        exact bfsF_comp_not_visited arr fuel _ _ c hmem (Finset.mem_insert_self c v)

theorem bfsF_comp_sound (arr : List Brunnel) (R : Fin arr.length → Prop)
    (hR : ∀ i j, R i → adjA arr i j → R j) :
    ∀ (fuel : ℕ) (q : List (Fin arr.length)) (v : Finset (Fin arr.length)),
      (∀ q' ∈ q, R q') → ∀ x ∈ (bfsF arr fuel q v).1, R x := by
  intro fuel
  induction fuel with
  | zero =>
    intro q v _ x hx
    cases q <;> simp [bfsF] at hx
  | succ fuel ih =>
    intro q v hq x hx
    cases q with
    | nil => simp [bfsF] at hx
    | cons c rest =>
      by_cases hc : c ∈ v
      · simp only [bfsF, if_pos hc] at hx
        exact ih rest v (fun q' hq' => hq q' (List.mem_cons_of_mem c hq')) x hx
      · simp only [bfsF, if_neg hc, List.mem_cons] at hx
        have hRc : R c := hq c (List.mem_cons_self c rest)
        rcases hx with hx | hx
        · exact hx ▸ hRc
        · refine ih _ _ ?_ x hx
          intro q' hq'
          rcases List.mem_append.mp hq' with h | h
          · exact hq q' (List.mem_cons_of_mem c h)
          · exact hR c q' hRc ((mem_bfsPushes arr c _ q').mp h).1

theorem flatMap_filter_length_le {α β : Type} (l : List α) (f : α → List β)
    (p : β → Bool) :
    (l.flatMap fun a => (f a).filter p).length ≤ (l.flatMap f).length := by
  induction l with
  | nil => simp
  | cons a l ih =>
    simp only [List.flatMap_cons, List.length_append]
    exact Nat.add_le_add (List.length_filter_le _ _) ih

theorem bfsPushes_length_le (arr : List Brunnel) (c : Fin arr.length)
    (v1 : Finset (Fin arr.length)) :
    (bfsPushes arr c v1).length ≤ pushCount arr c :=
  flatMap_filter_length_le _ _ _

theorem bfsFuel_step (arr : List Brunnel) (c : Fin arr.length)
    (rest : List (Fin arr.length)) (v : Finset (Fin arr.length)) (hc : c ∉ v) :
    bfsFuel arr (rest ++ bfsPushes arr c (insert c v)) (insert c v) + 1
      ≤ bfsFuel arr (c :: rest) v := by
  unfold bfsFuel
  have hcmem : c ∈ Finset.univ \ v := by simp [hc]
  have hsdiff : Finset.univ \ insert c v = (Finset.univ \ v).erase c := by
    ext x
    simp only [Finset.mem_sdiff, Finset.mem_erase, Finset.mem_insert, Finset.mem_univ,
      true_and]
    tauto
  rw [hsdiff]
  have hsum : (1 + pushCount arr c)
        + ∑ x ∈ (Finset.univ \ v).erase c, (1 + pushCount arr x)
      = ∑ x ∈ Finset.univ \ v, (1 + pushCount arr x) :=
    Finset.add_sum_erase _ (fun x => 1 + pushCount arr x) hcmem
  have hlen : (rest ++ bfsPushes arr c (insert c v)).length
      ≤ rest.length + pushCount arr c := by
    rw [List.length_append]
    exact Nat.add_le_add_left (bfsPushes_length_le arr c _) _
  simp only [List.length_cons]
  omega

theorem bfsFuel_skip (arr : List Brunnel) (c : Fin arr.length)
    (rest : List (Fin arr.length)) (v : Finset (Fin arr.length)) :
    bfsFuel arr rest v + 1 = bfsFuel arr (c :: rest) v := by
  unfold bfsFuel
  simp only [List.length_cons]
  omega

theorem bfsF_queue_absorbed (arr : List Brunnel) :
    ∀ (fuel : ℕ) (q : List (Fin arr.length)) (v : Finset (Fin arr.length)),
      bfsFuel arr q v ≤ fuel → ∀ q' ∈ q, q' ∈ (bfsF arr fuel q v).2 := by
  intro fuel
  induction fuel with
  | zero =>
    intro q v hf q' hq'
    cases q with
    | nil => simp at hq'
    | cons c rest =>
      exfalso
      unfold bfsFuel at hf
      simp [List.length_cons] at hf
  | succ fuel ih =>
    intro q v hf q' hq'
    cases q with
    | nil => simp at hq'
    | cons c rest =>
      by_cases hc : c ∈ v
      · simp only [bfsF, if_pos hc]
        have hf' : bfsFuel arr rest v ≤ fuel := by
          have := bfsFuel_skip arr c rest v
          omega
        rcases List.mem_cons.mp hq' with h | h
        · rw [bfsF_visited_iff]
          exact Or.inl (h ▸ hc)
        · exact ih rest v hf' q' h
      · simp only [bfsF, if_neg hc]
        have hstep := bfsFuel_step arr c rest v hc
        have hf' : bfsFuel arr (rest ++ bfsPushes arr c (insert c v)) (insert c v) ≤ fuel := by
          omega
        rcases List.mem_cons.mp hq' with h | h
        · rw [bfsF_visited_iff]
          refine Or.inl ?_
          rw [h]
          exact Finset.mem_insert_self c v
        · exact ih _ _ hf' q' (List.mem_append_left _ h)

theorem bfsF_comp_closed (arr : List Brunnel) :
    ∀ (fuel : ℕ) (q : List (Fin arr.length)) (v : Finset (Fin arr.length)),
      bfsFuel arr q v ≤ fuel →
      ∀ x ∈ (bfsF arr fuel q v).1, ∀ y, adjA arr x y → y ∈ (bfsF arr fuel q v).2 := by
  intro fuel
  induction fuel with
  | zero =>
    intro q v _ x hx
    cases q <;> simp [bfsF] at hx
  | succ fuel ih =>
    intro q v hf x hx y hadj
    cases q with
    | nil => simp [bfsF] at hx
    | cons c rest =>
      by_cases hc : c ∈ v
      · simp only [bfsF, if_pos hc] at hx ⊢
        have hf' : bfsFuel arr rest v ≤ fuel := by
          have := bfsFuel_skip arr c rest v
          omega
        exact ih rest v hf' x hx y hadj
      · have hstep := bfsFuel_step arr c rest v hc
        have hf' : bfsFuel arr (rest ++ bfsPushes arr c (insert c v)) (insert c v) ≤ fuel := by
          omega
        simp only [bfsF, if_neg hc, List.mem_cons] at hx ⊢
        rcases hx with hx | hx
        · subst hx
          by_cases hy : y ∈ insert x v
          · rw [bfsF_visited_iff]
            exact Or.inl hy
          · have hpush : y ∈ bfsPushes arr x (insert x v) :=
              (mem_bfsPushes arr x _ y).mpr ⟨hadj, hy⟩
            exact bfsF_queue_absorbed arr fuel _ _ hf' y (List.mem_append_right _ hpush)
        · exact ih _ _ hf' x hx y hadj

/-- A visited set closed under the shared-node adjacency. -/
def visitedClosed (arr : List Brunnel) (v : Finset (Fin arr.length)) : Prop :=
  ∀ x ∈ v, ∀ y, adjA arr x y → y ∈ v

/-- A single BFS run from an unvisited start over an adjacency-closed visited
set computes exactly the start's connected component. -/
theorem bfs_single_spec (arr : List Brunnel) (st : Fin arr.length)
    (v : Finset (Fin arr.length)) (hst : st ∉ v) (hcl : visitedClosed arr v) :
    (∀ j, j ∈ (bfs arr [st] v).1 ↔ locReach arr st j) ∧
    (bfs arr [st] v).1.Nodup ∧
    (∀ x, x ∈ (bfs arr [st] v).2 ↔ x ∈ v ∨ x ∈ (bfs arr [st] v).1) ∧
    (∀ x ∈ (bfs arr [st] v).1, x ∉ v) := by
  have hfuel : bfsFuel arr [st] v ≤ bfsFuel arr [st] v := le_refl _
  refine ⟨?_, bfsF_comp_nodup arr _ _ _, fun x => bfsF_visited_iff arr _ _ _ x,
    fun x hx => bfsF_comp_not_visited arr _ _ _ x hx⟩
  intro j
  constructor
  · intro hj
    refine bfsF_comp_sound arr (locReach arr st)
      (fun i k hi hadj => Relation.ReflTransGen.tail hi hadj) _ _ _ ?_ j hj
    intro q' hq'
    simp only [List.mem_singleton] at hq'
    exact hq' ▸ Relation.ReflTransGen.refl
  · intro hreach
    induction hreach with
    | refl =>
      have h1 : st ∈ (bfsF arr (bfsFuel arr [st] v) [st] v).2 :=
        bfsF_queue_absorbed arr _ _ _ hfuel st (by simp)
      rcases (bfsF_visited_iff arr _ _ _ st).mp h1 with h | h
      · exact absurd h hst
      · exact h
    | tail hx hstep ihx =>
      have hm := ihx
      have hj2 := bfsF_comp_closed arr _ _ _ hfuel _ hm _ hstep
      rcases (bfsF_visited_iff arr _ _ _ _).mp hj2 with h | h
      · exfalso
        have hmv := hcl _ h _ (adjA_symm arr hstep)
        exact bfsF_comp_not_visited arr _ _ _ _ hm hmv
      · exact h

/-- The component search visits every index once: each emitted component is a
nodup list of previously unvisited indices forming exactly one connected
component, every unvisited index lands in some component, and distinct
components are disjoint. -/
theorem findComponentsGo_spec (arr : List Brunnel) :
    ∀ (idxs : List (Fin arr.length)) (v : Finset (Fin arr.length)),
      visitedClosed arr v →
      (∀ comp ∈ findComponentsGo arr idxs v,
        comp.Nodup ∧ (∀ x ∈ comp, x ∉ v) ∧
          ∃ st ∈ comp, ∀ j, j ∈ comp ↔ locReach arr st j) ∧
      (∀ i ∈ idxs, i ∉ v → ∃ comp ∈ findComponentsGo arr idxs v, i ∈ comp) ∧
      (findComponentsGo arr idxs v).Pairwise List.Disjoint := by
  intro idxs
  induction idxs with
  | nil =>
    intro v _
    refine ⟨?_, ?_, ?_⟩ <;> simp [findComponentsGo]
  | cons i rest ih =>
    intro v hcl
    by_cases hi : i ∈ v
    · have h := ih v hcl
      simp only [findComponentsGo, if_pos hi]
      refine ⟨h.1, ?_, h.2.2⟩
      intro i' hi' hi'v
      rcases List.mem_cons.mp hi' with h1 | h1
      · exact absurd (h1 ▸ hi) hi'v
      · exact h.2.1 i' h1 hi'v
    · obtain ⟨hiff, hnodup, hviff, hnotv⟩ := bfs_single_spec arr i v hi hcl
      have hicomp : i ∈ (bfs arr [i] v).1 := (hiff i).mpr Relation.ReflTransGen.refl
      have hlen : (bfs arr [i] v).1.length > 0 :=
        List.length_pos.mpr (List.ne_nil_of_mem hicomp)
      have hcl2 : visitedClosed arr (bfs arr [i] v).2 := by
        intro x hx y hadj
        rcases (hviff x).mp hx with h1 | h1
        · exact (hviff y).mpr (Or.inl (hcl x h1 y hadj))
        · exact (hviff y).mpr (Or.inr ((hiff y).mpr
            (Relation.ReflTransGen.tail ((hiff x).mp h1) hadj)))
      have hrec := ih (bfs arr [i] v).2 hcl2
      have hshow : findComponentsGo arr (i :: rest) v
          = (bfs arr [i] v).1 :: findComponentsGo arr rest (bfs arr [i] v).2 := by
        simp only [findComponentsGo, if_neg hi]
        rw [if_pos hlen]
      rw [hshow]
      refine ⟨?_, ?_, ?_⟩
      · intro comp hcomp
        rcases List.mem_cons.mp hcomp with h1 | h1
        · exact h1 ▸ ⟨hnodup, hnotv, ⟨i, hicomp, hiff⟩⟩
        · obtain ⟨hn, hnv, hst⟩ := hrec.1 comp h1
          refine ⟨hn, ?_, hst⟩
          intro x hx hxv
          exact hnv x hx ((hviff x).mpr (Or.inl hxv))
      · intro i' hi' hi'v
        rcases List.mem_cons.mp hi' with h1 | h1
        · exact ⟨(bfs arr [i] v).1, List.mem_cons_self _ _, h1 ▸ hicomp⟩
        · by_cases hcomp : i' ∈ (bfs arr [i] v).1
          · exact ⟨(bfs arr [i] v).1, List.mem_cons_self _ _, hcomp⟩
          · have hi'v2 : i' ∉ (bfs arr [i] v).2 := by
              intro hmem
              rcases (hviff i').mp hmem with h2 | h2
              · exact hi'v h2
              · exact hcomp h2
            obtain ⟨comp, hcm, hcmm⟩ := hrec.2.1 i' h1 hi'v2
            exact ⟨comp, List.mem_cons_of_mem _ hcm, hcmm⟩
      · rw [List.pairwise_cons]
        refine ⟨?_, hrec.2.2⟩
        intro comp' hcomp' a ha ha'
        exact (hrec.1 comp' hcomp').2.1 a ha' ((hviff a).mpr (Or.inr ha))

/-! ### Representative selection -/

/-- Claim C5 (amended): a brunnel with no compound group, or a group of size
at most one, always represents itself; for a group of more than one member,
`isRepresentative` holds exactly when the brunnel is the earliest member of
the stored compound-group array attaining the minimal
`routeSpan.startDistance` sort key (null spans count as 0) — ties are broken
by the order of the stored group array, not by the original candidate
order. -/
theorem representative_is_earliest_min_start (s : List Brunnel) (b : Brunnel) :
    (b.compoundGroup = none → isRepresentative s b = true) ∧
    (∀ g, b.compoundGroup = some g → g.length ≤ 1 → isRepresentative s b = true) ∧
    (∀ g, b.compoundGroup = some g → 1 < g.length →
      (isRepresentative s b = true ↔ firstMinBy (repSortKey s) g = some b.idx)) := by
  refine ⟨?_, ?_, ?_⟩
  · intro h
    simp [isRepresentative, h]
  · intro g hg hlen
    simp [isRepresentative, hg, hlen]
  · intro g hg hlen
    have hnot : ¬ g.length ≤ 1 := by omega
    rw [isRepresentative, hg]
    simp only [if_neg hnot]
    rw [insertionSortBy_head_firstMinBy (repSortKey s) g]
    rcases hfm : firstMinBy (repSortKey s) g with _ | j
    · show (false : Bool) = true ↔ (none : Option ℕ) = some b.idx
      simp
    · show (j == b.idx) = true ↔ some j = some b.idx
      simp [beq_iff_eq]

/-- A pipeline-shaped state for the representative check: three bridges in
one compound group `[0, 2, 1]`, with span starts 5, 3 and 3. -/
def repS : List Brunnel :=
  [{idx := 0, id := 100, type := BrunnelType.bridge, geometry := [(5, 0), (5, 1)],
    nodes := [1], routeSpan := some ⟨5, 6⟩, exclusionReason := none,
    selected := true, overlapGroup := none, compoundGroup := some [0, 2, 1]},
   {idx := 1, id := 101, type := BrunnelType.bridge, geometry := [(3, 0), (3, 1)],
    nodes := [2], routeSpan := some ⟨3, 4⟩, exclusionReason := none,
    selected := true, overlapGroup := none, compoundGroup := some [0, 2, 1]},
   {idx := 2, id := 102, type := BrunnelType.bridge, geometry := [(3, 2), (3, 3)],
    nodes := [1, 2], routeSpan := some ⟨3, 4⟩, exclusionReason := none,
    selected := true, overlapGroup := none, compoundGroup := some [0, 2, 1]}]

/-- The member with `idx = 2` of `repS`. -/
def repB : Brunnel :=
  {idx := 2, id := 102, type := BrunnelType.bridge, geometry := [(3, 2), (3, 3)],
   nodes := [1, 2], routeSpan := some ⟨3, 4⟩, exclusionReason := none,
   selected := true, overlapGroup := none, compoundGroup := some [0, 2, 1]}

theorem representative_is_earliest_min_start_witness :
    ((repB.compoundGroup = none → isRepresentative repS repB = true) ∧
     (∀ g, repB.compoundGroup = some g → g.length ≤ 1 →
       isRepresentative repS repB = true) ∧
     (∀ g, repB.compoundGroup = some g → 1 < g.length →
       (isRepresentative repS repB = true ↔
         firstMinBy (repSortKey repS) g = some repB.idx))) ∧
    repB.compoundGroup = some [0, 2, 1] ∧ 1 < ([0, 2, 1] : List ℕ).length ∧
    isRepresentative repS repB = true ∧
    firstMinBy (repSortKey repS) [0, 2, 1] = some repB.idx :=
  ⟨representative_is_earliest_min_start repS repB, by rfl, by decide, by rfl, by rfl⟩

/-! ### Compound groups form the connected-component partition -/

/-- Shared-node adjacency on object identities: some two members of `arr`
with these `idx` values share a node id. -/
def LinkedIdx (arr : List Brunnel) (i j : ℕ) : Prop :=
  ∃ b ∈ arr, ∃ c ∈ arr, b.idx = i ∧ c.idx = j ∧ sharesNode b c

/-- Connectivity of the shared-node graph on object identities. -/
def ConnIdx (arr : List Brunnel) : ℕ → ℕ → Prop :=
  Relation.ReflTransGen (LinkedIdx arr)

theorem connIdx_singleton (b : Brunnel) (j : ℕ) (h : ConnIdx [b] b.idx j) :
    j = b.idx := by
  induction h with
  | refl => rfl
  | tail _ hlink _ =>
    obtain ⟨x, _, y, hy, _, hyi, _⟩ := hlink
    rw [List.mem_singleton] at hy
    subst hy
    exact hyi.symm

theorem getIdx_injective (arr : List Brunnel) (hnd : (arr.map Brunnel.idx).Nodup)
    {i j : Fin arr.length} (h : (arr.get i).idx = (arr.get j).idx) : i = j := by
  have harr : arr.Nodup := List.Nodup.of_map Brunnel.idx hnd
  have hget : arr.get i = arr.get j :=
    List.inj_on_of_nodup_map hnd (List.get_mem arr i.1 i.2) (List.get_mem arr j.1 j.2) h
  exact (List.Nodup.get_inj_iff harr).mp hget

theorem locReach_to_connIdx (arr : List Brunnel) (k m : Fin arr.length)
    (h : locReach arr k m) : ConnIdx arr (arr.get k).idx (arr.get m).idx := by
  induction h with
  | refl => exact Relation.ReflTransGen.refl
  | tail _ hadj ih =>
    exact Relation.ReflTransGen.tail ih
      ⟨arr.get _, List.get_mem arr _ _, arr.get _, List.get_mem arr _ _, rfl, rfl, hadj⟩

theorem connIdx_to_locReach (arr : List Brunnel)
    (hnd : (arr.map Brunnel.idx).Nodup) (k : Fin arr.length) :
    ∀ z, ConnIdx arr (arr.get k).idx z →
      ∃ m : Fin arr.length, locReach arr k m ∧ (arr.get m).idx = z := by
  have hinj : ∀ x ∈ arr, ∀ y ∈ arr, x.idx = y.idx → x = y := fun x hx y hy hxy =>
    List.inj_on_of_nodup_map hnd hx hy hxy
  intro z h
  induction h with
  | refl => exact ⟨k, Relation.ReflTransGen.refl, rfl⟩
  | tail _ hlink ih =>
    obtain ⟨m, hreach, hmid⟩ := ih
    obtain ⟨x, hx, y, hy, hxi, hyi, hsh⟩ := hlink
    have hxm : x = arr.get m :=
      hinj x hx (arr.get m) (List.get_mem arr m.1 m.2) (by rw [hxi, hmid])
    obtain ⟨n, hn⟩ := List.mem_iff_get.mp hy
    refine ⟨n, Relation.ReflTransGen.tail hreach ?_, by rw [hn]; exact hyi⟩
    show sharesNode (arr.get m) (arr.get n)
    rw [← hxm, hn]
    exact hsh

theorem disjoint_mem_unique {α : Type} :
    ∀ (L : List (List α)), L.Pairwise List.Disjoint →
      ∀ {g g' : List α}, g ∈ L → g' ∈ L → ∀ {x : α}, x ∈ g → x ∈ g' → g = g' := by
  intro L
  induction L with
  | nil =>
    intro _ g g' hg
    cases hg
  | cons a l ih =>
    intro hdisj g g' hg hg' x hx hx'
    rcases List.pairwise_cons.mp hdisj with ⟨ha, hl⟩
    rcases List.mem_cons.mp hg with rfl | hgl
    · rcases List.mem_cons.mp hg' with rfl | hg'l
      · rfl
      · exact (ha g' hg'l hx hx').elim
    · rcases List.mem_cons.mp hg' with rfl | hg'l
      · exact (ha g hgl hx' hx).elim
      · exact ih hl hgl hg'l hx hx'

theorem findConnectedComponents_spec (arr : List Brunnel) :
    (∀ comp ∈ findConnectedComponents arr,
      comp.Nodup ∧ ∃ st ∈ comp, ∀ j, j ∈ comp ↔ locReach arr st j) ∧
    (∀ i : Fin arr.length, ∃ comp ∈ findConnectedComponents arr, i ∈ comp) ∧
    (findConnectedComponents arr).Pairwise List.Disjoint := by
  have h := findComponentsGo_spec arr (List.finRange arr.length) ∅
    (fun x hx => absurd hx (Finset.not_mem_empty x))
  exact ⟨fun comp hc => ⟨(h.1 comp hc).1, (h.1 comp hc).2.2⟩,
    fun i => h.2.1 i (List.mem_finRange i) (Finset.not_mem_empty i), h.2.2⟩

theorem compsOfType_disjoint (arr : List Brunnel)
    (hnd : (arr.map Brunnel.idx).Nodup) :
    (compsOfType arr).Pairwise List.Disjoint := by
  unfold compsOfType
  refine List.Pairwise.map _ ?_ ((findConnectedComponents_spec arr).2.2)
  intro c1 c2 hd x hx1 hx2
  obtain ⟨m1, hm1, hf1⟩ := List.mem_map.mp hx1
  obtain ⟨m2, hm2, hf2⟩ := List.mem_map.mp hx2
  have hm : m1 = m2 := getIdx_injective arr hnd (by rw [hf1, hf2])
  exact hd hm1 (hm ▸ hm2)

theorem compoundFold_group :
    ∀ (comps : List (List ℕ)) (b : Brunnel), comps.Pairwise List.Disjoint →
      ((∀ g ∈ comps, ¬(1 < g.length ∧ b.idx ∈ g)) →
        (comps.foldl (fun x c => compoundStep c x) b).compoundGroup
          = b.compoundGroup) ∧
      (∀ g ∈ comps, 1 < g.length → b.idx ∈ g →
        (comps.foldl (fun x c => compoundStep c x) b).compoundGroup = some g) := by
  intro comps
  induction comps with
  | nil =>
    intro b _
    exact ⟨fun _ => rfl, fun g hg => absurd hg (List.not_mem_nil g)⟩
  | cons c cs ih =>
    intro b hdisj
    rcases List.pairwise_cons.mp hdisj with ⟨hc, hcs⟩
    constructor
    · intro hnone
      have hcb : compoundStep c b = b := by
        unfold compoundStep
        by_cases h1 : c.length > 1
        · rw [if_pos h1, if_neg]
          intro hmem
          exact hnone c (List.mem_cons_self c cs) ⟨h1, hmem⟩
        · rw [if_neg h1]
      simp only [List.foldl_cons, hcb]
      exact (ih b hcs).1 fun g hg => hnone g (List.mem_cons_of_mem c hg)
    · intro g hg hlen hmem
      rcases List.mem_cons.mp hg with rfl | hgs
      · have hcb : compoundStep g b = {b with compoundGroup := some g} := by
          unfold compoundStep
          rw [if_pos hlen, if_pos hmem]
        simp only [List.foldl_cons, hcb]
        have hfix := (ih {b with compoundGroup := some g} hcs).1
          (fun g' hg' hbad => hc g' hg' hmem hbad.2)
        rw [hfix]
      · have hbc : b.idx ∉ c := fun hin => hc g hgs hin hmem
        have hcb : compoundStep c b = b := by
          unfold compoundStep
          by_cases h1 : c.length > 1
          · rw [if_pos h1, if_neg hbc]
          · rw [if_neg h1]
        simp only [List.foldl_cons, hcb]
        exact (ih b hcs).2 g hgs hlen hmem

theorem compoundElemForType_absent (arr : List Brunnel) (b : Brunnel)
    (hnd : (arr.map Brunnel.idx).Nodup)
    (habs : ∀ x ∈ arr, x.idx ≠ b.idx) :
    (compoundElemForType arr b).compoundGroup = b.compoundGroup := by
  unfold compoundElemForType
  by_cases h1 : arr.length ≤ 1
  · rw [if_pos h1]
  · rw [if_neg h1]
    refine (compoundFold_group (compsOfType arr) b (compsOfType_disjoint arr hnd)).1 ?_
    intro g hg hbad
    obtain ⟨comp, hcomp, rfl⟩ := List.mem_map.mp hg
    obtain ⟨m, _, hfm⟩ := List.mem_map.mp hbad.2
    exact habs (arr.get m) (List.get_mem arr m.1 m.2) hfm

theorem compoundElemForType_comp (arr : List Brunnel)
    (hnd : (arr.map Brunnel.idx).Nodup)
    (h1 : ¬ arr.length ≤ 1)
    (b : Brunnel) (k : Fin arr.length) (hk : (arr.get k).idx = b.idx)
    (comp : List (Fin arr.length)) (hcomp : comp ∈ findConnectedComponents arr)
    (hkc : k ∈ comp) :
    (1 < comp.length →
      (compoundElemForType arr b).compoundGroup
        = some (comp.map fun i => (arr.get i).idx)) ∧
    (comp.length ≤ 1 →
      (compoundElemForType arr b).compoundGroup = b.compoundGroup) := by
  have hdisjF := (findConnectedComponents_spec arr).2.2
  have hdisj := compsOfType_disjoint arr hnd
  have hgmem : (comp.map fun i => (arr.get i).idx) ∈ compsOfType arr :=
    List.mem_map.mpr ⟨comp, hcomp, rfl⟩
  have hbmem : b.idx ∈ comp.map fun i => (arr.get i).idx :=
    List.mem_map.mpr ⟨k, hkc, hk⟩
  constructor
  · intro hlen
    unfold compoundElemForType
    rw [if_neg h1]
    exact (compoundFold_group (compsOfType arr) b hdisj).2 _ hgmem
      (by rw [List.length_map]; exact hlen) hbmem
  · intro hlen
    unfold compoundElemForType
    rw [if_neg h1]
    refine (compoundFold_group (compsOfType arr) b hdisj).1 ?_
    intro g hg hbad
    obtain ⟨hglen, hbg⟩ := hbad
    obtain ⟨comp2, hcomp2, rfl⟩ := List.mem_map.mp hg
    obtain ⟨m, hm, hfm⟩ := List.mem_map.mp hbg
    have hmk : m = k := getIdx_injective arr hnd (by rw [hfm, hk])
    have hcc : comp2 = comp :=
      disjoint_mem_unique _ hdisjF hcomp2 hcomp (hmk ▸ hm) hkc
    rw [List.length_map, hcc] at hglen
    omega

theorem compoundElemForType_fields (arr : List Brunnel) (b : Brunnel) :
    (compoundElemForType arr b).idx = b.idx ∧
    (compoundElemForType arr b).id = b.id ∧
    (compoundElemForType arr b).type = b.type ∧
    (compoundElemForType arr b).geometry = b.geometry ∧
    (compoundElemForType arr b).nodes = b.nodes ∧
    (compoundElemForType arr b).routeSpan = b.routeSpan ∧
    (compoundElemForType arr b).exclusionReason = b.exclusionReason ∧
    (compoundElemForType arr b).selected = b.selected ∧
    (compoundElemForType arr b).overlapGroup = b.overlapGroup := by
  unfold compoundElemForType
  by_cases h : arr.length ≤ 1
  · rw [if_pos h]
    exact ⟨rfl, rfl, rfl, rfl, rfl, rfl, rfl, rfl, rfl⟩
  · rw [if_neg h]
    exact compoundFold_fields _ _

theorem connIdx_const (arr : List Brunnel) (i : ℕ)
    (hall : ∀ x ∈ arr, x.idx = i) (j : ℕ) (h : ConnIdx arr i j) : j = i := by
  induction h with
  | refl => rfl
  | tail _ hlink _ =>
    obtain ⟨x, _, y, hy, _, hyi, _⟩ := hlink
    rw [← hyi]
    exact hall y hy

theorem eq_setCompound_of_fields (b c : Brunnel)
    (h1 : c.idx = b.idx) (h2 : c.id = b.id) (h3 : c.type = b.type)
    (h4 : c.geometry = b.geometry) (h5 : c.nodes = b.nodes)
    (h6 : c.routeSpan = b.routeSpan) (h7 : c.exclusionReason = b.exclusionReason)
    (h8 : c.selected = b.selected) (h9 : c.overlapGroup = b.overlapGroup) :
    c = {b with compoundGroup := c.compoundGroup} := by
  cases b
  cases c
  simp only [Brunnel.mk.injEq]
  exact ⟨h1, h2, h3, h4, h5, h6, h7, h8, h9, trivial⟩

/-- One kind-restricted compound pass on a brunnel whose identity occurs in
`arr`: either its component is trivial and `compoundGroup` stays `none`, or
the pass stores the full component — the same idx list for every member
identity. -/
theorem compoundElemForType_main (arr : List Brunnel)
    (hnd : (arr.map Brunnel.idx).Nodup)
    (b : Brunnel) (k : Fin arr.length) (hk : (arr.get k).idx = b.idx)
    (hcg : b.compoundGroup = none) :
    ((compoundElemForType arr b).compoundGroup = none ∧
      (∀ j, ConnIdx arr b.idx j → j = b.idx)) ∨
    (∃ g, (compoundElemForType arr b).compoundGroup = some g ∧
      g.Nodup ∧ 1 < g.length ∧ b.idx ∈ g ∧
      (∀ j, j ∈ g ↔ ConnIdx arr b.idx j) ∧
      (∀ j ∈ g, ∃ x ∈ arr, x.idx = j) ∧
      (∀ c : Brunnel, c.idx ∈ g →
        (compoundElemForType arr c).compoundGroup = some g)) := by
  by_cases h1 : arr.length ≤ 1
  · left
    have hall : ∀ x ∈ arr, x.idx = b.idx := by
      intro x hx
      have hxk : x = arr.get k := by
        cases arr with
        | nil => cases hx
        | cons a l =>
          have hl : l = [] := by
            simp only [List.length_cons] at h1
            exact List.length_eq_zero.mp (by omega)
          subst hl
          rw [List.mem_singleton] at hx
          have hk0 : k = (⟨0, by simp⟩ : Fin 1) := Fin.ext (by omega)
          rw [hx, hk0]
          rfl
      rw [hxk, hk]
    constructor
    · unfold compoundElemForType
      rw [if_pos h1, hcg]
    · exact connIdx_const arr b.idx hall
  · obtain ⟨comp, hcomp, hkc⟩ := (findConnectedComponents_spec arr).2.1 k
    obtain ⟨hcnd, st, hst, hstiff⟩ := (findConnectedComponents_spec arr).1 comp hcomp
    have hstk : locReach arr st k := (hstiff k).mp hkc
    have hmemiff : ∀ m, m ∈ comp ↔ locReach arr k m := by
      intro m
      rw [hstiff m]
      constructor
      · intro h
        exact Relation.ReflTransGen.trans (locReach_symm arr hstk) h
      · intro h
        exact Relation.ReflTransGen.trans hstk h
    have hconniff : ∀ j, ConnIdx arr b.idx j ↔
        ∃ m : Fin arr.length, locReach arr k m ∧ (arr.get m).idx = j := by
      intro j
      constructor
      · intro h
        exact connIdx_to_locReach arr hnd k j (hk ▸ h)
      · rintro ⟨m, hm, rfl⟩
        exact hk ▸ locReach_to_connIdx arr k m hm
    by_cases hlen : 1 < comp.length
    · right
      refine ⟨comp.map fun i => (arr.get i).idx,
        (compoundElemForType_comp arr hnd h1 b k hk comp hcomp hkc).1 hlen,
        ?_, ?_, List.mem_map.mpr ⟨k, hkc, hk⟩, ?_, ?_, ?_⟩
      · exact List.Nodup.map (fun a c h => getIdx_injective arr hnd h) hcnd
      · rw [List.length_map]
        exact hlen
      · intro j
        rw [hconniff j]
        constructor
        · intro h
          obtain ⟨m, hm, hfm⟩ := List.mem_map.mp h
          exact ⟨m, (hmemiff m).mp hm, hfm⟩
        · rintro ⟨m, hm, rfl⟩
          exact List.mem_map.mpr ⟨m, (hmemiff m).mpr hm, rfl⟩
      · intro j hj
        obtain ⟨m, _, hfm⟩ := List.mem_map.mp hj
        exact ⟨arr.get m, List.get_mem arr m.1 m.2, hfm⟩
      · intro c hc
        obtain ⟨m, hm, hfm⟩ := List.mem_map.mp hc
        exact (compoundElemForType_comp arr hnd h1 c m hfm comp hcomp hm).1 hlen
    · left
      have hlen' : comp.length ≤ 1 := by omega
      constructor
      · rw [(compoundElemForType_comp arr hnd h1 b k hk comp hcomp hkc).2 hlen', hcg]
      · intro j hconn
        obtain ⟨m, hm, hfm⟩ := (hconniff j).mp hconn
        have hmc : m ∈ comp := (hmemiff m).mpr hm
        have hmk : m = k := by
          rcases comp with _ | ⟨a, l⟩
          · cases hmc
          · have hl : l = [] := by
              simp only [List.length_cons] at hlen'
              exact List.length_eq_zero.mp (by omega)
            subst hl
            rw [List.mem_singleton] at hmc hkc
            rw [hmc, hkc]
        rw [← hfm, hmk, hk]

theorem filter_idx_nodup (s : List Brunnel) (hnd : (s.map Brunnel.idx).Nodup)
    (p : Brunnel → Bool) : ((s.filter p).map Brunnel.idx).Nodup :=
  List.Nodup.sublist (List.Sublist.map Brunnel.idx (List.filter_sublist s)) hnd

/-- The whole compound stage changes a member's `compoundGroup` exactly as the
pass over its own kind does: the other kind's pass cannot touch it. -/
theorem compoundElem_cg (s : List Brunnel) (hnd : (s.map Brunnel.idx).Nodup)
    (b : Brunnel) (hb : b ∈ s) :
    (compoundElem s b).compoundGroup
      = (compoundElemForType (s.filter fun x => x.type == b.type) b).compoundGroup := by
  have hinj : ∀ x ∈ s, ∀ y ∈ s, x.idx = y.idx → x = y := fun x hx y hy h =>
    List.inj_on_of_nodup_map hnd hx hy h
  have hndb := filter_idx_nodup s hnd (fun x => x.type == BrunnelType.bridge)
  have hndt := filter_idx_nodup s hnd (fun x => x.type == BrunnelType.tunnel)
  cases hty : b.type with
  | bridge =>
    have hfields := compoundElemForType_fields
      (s.filter fun x => x.type == BrunnelType.bridge) b
    have habs : ∀ x ∈ s.filter (fun x => x.type == BrunnelType.tunnel),
        x.idx ≠ (compoundElemForType
          (s.filter fun x => x.type == BrunnelType.bridge) b).idx := by
      intro x hx hxe
      rw [hfields.1] at hxe
      have hxs := (List.mem_filter.mp hx).1
      have hxt : x.type = BrunnelType.tunnel := by
        have h2 := (List.mem_filter.mp hx).2
        simpa using h2
      have hxb : x = b := hinj x hxs b hb hxe
      rw [hxb, hty] at hxt
      cases hxt
    unfold compoundElem
    rw [compoundElemForType_absent _ _ hndt habs]
  | tunnel =>
    have hfieldsb := compoundElemForType_fields
      (s.filter fun x => x.type == BrunnelType.bridge) b
    have habs : ∀ x ∈ s.filter (fun x => x.type == BrunnelType.bridge),
        x.idx ≠ b.idx := by
      intro x hx hxe
      have hxs := (List.mem_filter.mp hx).1
      have hxt : x.type = BrunnelType.bridge := by
        have h2 := (List.mem_filter.mp hx).2
        simpa using h2
      have hxb : x = b := hinj x hxs b hb hxe
      rw [hxb, hty] at hxt
      cases hxt
    have hcgb := compoundElemForType_absent
      (s.filter fun x => x.type == BrunnelType.bridge) b hndb habs
    have hfull : compoundElemForType
        (s.filter fun x => x.type == BrunnelType.bridge) b = b := by
      have heq := eq_setCompound_of_fields b _ hfieldsb.1 hfieldsb.2.1
        hfieldsb.2.2.1 hfieldsb.2.2.2.1 hfieldsb.2.2.2.2.1 hfieldsb.2.2.2.2.2.1
        hfieldsb.2.2.2.2.2.2.1 hfieldsb.2.2.2.2.2.2.2.1 hfieldsb.2.2.2.2.2.2.2.2
      rw [heq, hcgb]
    unfold compoundElem
    rw [hfull]

/-- Claim C3: after compound detection, the `compoundGroup` assignment is
exactly the connected-component partition of the shared-node graph restricted
to crossings of one kind.  The stage rewrites only `compoundGroup` (same
objects, same order); a member whose kind-restricted component is trivial
keeps `compoundGroup = none`; and a stored group is a duplicate-free list of
more than one member identity that contains the member itself, holds exactly
the identities connected to it in its own kind's shared-node graph, and is
stored identically on every one of its members, all of the same kind — so
group membership is reflexive, symmetric and transitive, and no group mixes
bridges with tunnels. -/
theorem compound_groups_are_connected_components (s : List Brunnel)
    (hnd : (s.map Brunnel.idx).Nodup)
    (hnone : ∀ b ∈ s, b.compoundGroup = none) :
    (findCompoundBrunnels s).map Brunnel.idx = s.map Brunnel.idx ∧
    ∀ b' ∈ findCompoundBrunnels s,
      (∃ b ∈ s, b' = {b with compoundGroup := b'.compoundGroup}) ∧
      (b'.compoundGroup = none →
        ∀ j, ConnIdx (s.filter fun x => x.type == b'.type) b'.idx j → j = b'.idx) ∧
      (∀ g, b'.compoundGroup = some g →
        g.Nodup ∧ 1 < g.length ∧ b'.idx ∈ g ∧
        (∀ j, j ∈ g ↔ ConnIdx (s.filter fun x => x.type == b'.type) b'.idx j) ∧
        (∀ c' ∈ findCompoundBrunnels s, c'.idx ∈ g →
          c'.compoundGroup = some g ∧ c'.type = b'.type)) := by
  have hout := findCompoundBrunnels_eq_map s
  have hinj : ∀ x ∈ s, ∀ y ∈ s, x.idx = y.idx → x = y := fun x hx y hy h =>
    List.inj_on_of_nodup_map hnd hx hy h
  constructor
  · rw [hout]
    exact map_idx_of_pointwise _ (fun b => (compoundElem_fields s b).1) s
  · intro b' hb'
    rw [hout] at hb'
    obtain ⟨b, hb, rfl⟩ := List.mem_map.mp hb'
    have hf := compoundElem_fields s b
    have hidx : (compoundElem s b).idx = b.idx := hf.1
    have htype : (compoundElem s b).type = b.type := hf.2.2.1
    have hnda := filter_idx_nodup s hnd (fun x => x.type == b.type)
    have hbmem : b ∈ s.filter fun x => x.type == b.type :=
      List.mem_filter.mpr ⟨hb, by simp⟩
    obtain ⟨k, hkb⟩ := List.mem_iff_get.mp hbmem
    have hk : ((s.filter fun x => x.type == b.type).get k).idx = b.idx := by
      rw [hkb]
    have hcg := compoundElem_cg s hnd b hb
    have hmain := compoundElemForType_main (s.filter fun x => x.type == b.type)
      hnda b k hk (hnone b hb)
    refine ⟨⟨b, hb, eq_setCompound_of_fields b _ hf.1 hf.2.1 hf.2.2.1 hf.2.2.2.1
      hf.2.2.2.2.1 hf.2.2.2.2.2.1 hf.2.2.2.2.2.2.1 hf.2.2.2.2.2.2.2.1
      hf.2.2.2.2.2.2.2.2⟩, ?_, ?_⟩
    · intro hno j hconn
      rw [htype, hidx] at hconn
      rw [hidx]
      rcases hmain with ⟨_, hsing⟩ | ⟨g, hcgs, _⟩
      · exact hsing j hconn
      · rw [hcg, hcgs] at hno
        cases hno
    · intro g' hg'
      rw [hcg] at hg'
      rcases hmain with ⟨hcgn, _⟩ | ⟨g, hcgs, hgnd, hglen, hbg, hgiff, hgarr, hguni⟩
      · rw [hcgn] at hg'
        cases hg'
      · rw [hcgs] at hg'
        injection hg' with hgg
        subst hgg
        refine ⟨hgnd, hglen, ?_, ?_, ?_⟩
        · rw [hidx]
          exact hbg
        · intro j
          rw [htype, hidx]
          exact hgiff j
        · intro c' hc' hcg'
          rw [hout] at hc'
          obtain ⟨c, hc, rfl⟩ := List.mem_map.mp hc'
          have hfc := compoundElem_fields s c
          have hcidx : c.idx ∈ g := by
            rw [← hfc.1]
            exact hcg'
          obtain ⟨x, hxarr, hxidx⟩ := hgarr c.idx hcidx
          have hxs := (List.mem_filter.mp hxarr).1
          have hxty : x.type = b.type := by
            have h2 := (List.mem_filter.mp hxarr).2
            simpa using h2
          have hxc : x = c := hinj x hxs c hc hxidx
          have hcty : c.type = b.type := hxc ▸ hxty
          constructor
          · rw [compoundElem_cg s hnd c hc, hcty]
            exact hguni c hcidx
          · rw [hfc.2.2.1, htype]
            exact hcty

theorem compound_groups_are_connected_components_witness :
    (brunnelsTie.map Brunnel.idx).Nodup ∧
    (∀ b ∈ brunnelsTie, b.compoundGroup = none) ∧
    ((findCompoundBrunnels brunnelsTie).map Brunnel.idx
        = brunnelsTie.map Brunnel.idx ∧
      ∀ b' ∈ findCompoundBrunnels brunnelsTie,
        (∃ b ∈ brunnelsTie, b' = {b with compoundGroup := b'.compoundGroup}) ∧
        (b'.compoundGroup = none →
          ∀ j, ConnIdx (brunnelsTie.filter fun x => x.type == b'.type) b'.idx j →
            j = b'.idx) ∧
        (∀ g, b'.compoundGroup = some g →
          g.Nodup ∧ 1 < g.length ∧ b'.idx ∈ g ∧
          (∀ j, j ∈ g ↔
            ConnIdx (brunnelsTie.filter fun x => x.type == b'.type) b'.idx j) ∧
          (∀ c' ∈ findCompoundBrunnels brunnelsTie, c'.idx ∈ g →
            c'.compoundGroup = some g ∧ c'.type = b'.type))) :=
  ⟨by decide, by decide,
    compound_groups_are_connected_components brunnelsTie (by decide) (by decide)⟩
